import Mathlib

/-!
Verification of the natural-language specification of the `theorie-check50`
validators against a shallow embedding of the three Python modules:
`chips_and_circuits`, `lectures_and_lesroosters` and `rush_hour/checks`.

The definitions below are translated directly from the Python source.
Machine integers are modelled as `Int`/`Nat` (Python integers are unbounded,
so no wrap-around modelling is needed); exceptions are modelled as `Except`
values or as an explicit `Option`-error component when the partially mutated
state matters; the mutable 2D/3D arrays are modelled as total functions from
coordinates to cell contents, updated pointwise.
-/

namespace TheorieCheck

/-! ### Chips & Circuits: spatial primitives (`Gate`, `Wire`) -/

namespace Chips

/-- `Gate` from `chips_and_circuits/__init__.py`: identity plus a fixed
integer position; the gate layout files carry non-negative coordinates, so
positions are modelled as `Nat`.  `self.z = 0` always. -/
structure Gate where
  id : String
  x : Nat
  y : Nat
deriving DecidableEq

/-- The constant `self.z = 0` set in `Gate.__init__`. -/
def Gate.z (_ : Gate) : Nat := 0

/-- `Wire`: an integer position `(x, y, z)`; candidate files only contain
regex-validated non-negative coordinates, so `Nat`. -/
structure Wire where
  x : Nat
  y : Nat
  z : Nat
deriving DecidableEq

/-- `Wire._is_neighbor(other, distance)` specialised as in the source:
the 3D Manhattan distance between `self` and `other`. -/
def Wire.manhattanToGate (w : Wire) (g : Gate) : Nat :=
  ((w.x : Int) - (g.x : Int)).natAbs + ((w.y : Int) - (g.y : Int)).natAbs +
    ((w.z : Int) - (Gate.z g : Int)).natAbs

def Wire.manhattanToWire (w v : Wire) : Nat :=
  ((w.x : Int) - (v.x : Int)).natAbs + ((w.y : Int) - (v.y : Int)).natAbs +
    ((w.z : Int) - (v.z : Int)).natAbs

/-- `Wire.is_connected_to_gate`: `_is_neighbor(gate, distance=0)`. -/
def Wire.is_connected_to_gate (w : Wire) (g : Gate) : Bool :=
  w.manhattanToGate g == 0

/-- `Wire.is_neighbor_of_wire`: `_is_neighbor(wire)` with the default
`distance=1`. -/
def Wire.is_neighbor_of_wire (w v : Wire) : Bool :=
  w.manhattanToWire v == 1

/-! ### Net construction (`Net.__init__`, `_check_connected`,
`_check_continuous`) -/

structure Net where
  gate_a : Gate
  gate_b : Gate
  wires : List Wire
deriving DecidableEq

/-- The two failure kinds raised by `Net.__init__`:
`UnconnectedNetError` and `InteruptedNetError`. -/
inductive NetError where
  | unconnected
  | interrupted
deriving DecidableEq

/-- `Net._check_connected`: `wires[0]`/`wires[-1]` must pair up with the two
gates (the Python code would raise `IndexError` on an empty wire list; the
claims only concern non-empty lists, where `head?`/`getLast?` are `some`). -/
def check_connected (gate_a gate_b : Gate) (wires : List Wire) : Bool :=
  match wires.head?, wires.getLast? with
  | some w0, some wn =>
    (w0.is_connected_to_gate gate_a && wn.is_connected_to_gate gate_b) ||
    (w0.is_connected_to_gate gate_b && wn.is_connected_to_gate gate_a)
  | _, _ => false

/-- `Net._check_continuous`: the cursor loop checking each consecutive pair
of waypoints for Manhattan adjacency. -/
def check_continuous : List Wire → Bool
  | [] => true
  | [_] => true
  | w1 :: w2 :: rest => w1.is_neighbor_of_wire w2 && check_continuous (w2 :: rest)

/-- `Net.__init__`: runs `_check_connected` then `_check_continuous`,
raising the corresponding error kind, otherwise yielding the net. -/
def mkNet (gate_a gate_b : Gate) (wires : List Wire) : Except NetError Net :=
  if !(check_connected gate_a gate_b wires) then .error .unconnected
  else if !(check_continuous wires) then .error .interrupted
  else .ok ⟨gate_a, gate_b, wires⟩

/-! ### The grid (`Grid`, `Grid.Cell`) -/

/-- Occupants of a `Grid.Cell`: a gate (for gate cells) or a net reference
(for wire cells). -/
inductive Occupant where
  | gate (g : Gate)
  | net (n : Net)
deriving DecidableEq

structure Cell where
  occupants : List Occupant
  is_gate : Bool

/-- `Grid.Cell.__init__`. -/
def Cell.empty : Cell := ⟨[], false⟩

def NUMBER_OF_LAYERS : Nat := 8

/-- `Grid`: the 3D cell array is modelled as a total function
`z → y → x → Cell`; `get_cost` and all writers only touch indices inside
`[0, NUMBER_OF_LAYERS) × [0, height) × [0, width)` (Python raises
`IndexError` outside that range, which the claims exclude). -/
structure Grid where
  gates : List Gate
  nets : List Net
  width : Nat
  height : Nat
  cells : Nat → Nat → Nat → Cell

/-- The only failure raised while building a grid: the
`assert not self.is_gate` in `Grid.Cell.set_as_gate`, i.e. a second gate
placed on an already-gate cell. -/
inductive GridError where
  | duplicateGatePlacement
deriving DecidableEq

/-- `Grid.Cell.set_as_gate`. -/
def Cell.set_as_gate (c : Cell) (g : Gate) : Except GridError Cell :=
  if c.is_gate then .error .duplicateGatePlacement
  else .ok ⟨[.gate g], true⟩

/-- The error raised by `Grid.Cell.add_net`: `OccupiedByGateError`. -/
inductive PlaceNetError where
  | occupiedByGate
deriving DecidableEq

/-- `Grid.Cell.add_net`. -/
def Cell.add_net (c : Cell) (n : Net) : Except PlaceNetError Cell :=
  if c.is_gate then .error .occupiedByGate
  else .ok { c with occupants := c.occupants ++ [.net n] }

/-- Pointwise update of the cell array (`self._grid[z][y][x] = ...`). -/
def Grid.updateCell (grid : Grid) (z y x : Nat) (c : Cell) : Grid :=
  { grid with
    cells := fun z' y' x' => if z' = z ∧ y' = y ∧ x' = x then c else grid.cells z' y' x' }

/-- `Grid.place_gate`. -/
def Grid.place_gate (grid : Grid) (g : Gate) : Except GridError Grid := do
  let c ← (grid.cells 0 g.y g.x).set_as_gate g
  pure (grid.updateCell 0 g.y g.x c)

/-- `Grid.__init__` given the parsed gate rows: width/height are the maximal
gate coordinate plus 2, all cells start empty, and every gate is placed in
order.  (Python's `max` raises on an empty gate list; the claims concern
layouts with at least two gates.) -/
def initGrid (gates : List Gate) : Except GridError Grid :=
  (gates.foldlM Grid.place_gate
    { gates := gates
      nets := []
      width := (gates.map (fun g => g.x)).foldr max 0 + 2
      height := (gates.map (fun g => g.y)).foldr max 0 + 2
      cells := fun _ _ _ => Cell.empty })

/-- The loop body of `Grid.place_net`: add the net to each interior
waypoint's cell in order; on `OccupiedByGateError` the grid mutated so far is
kept (Python mutates in place and the exception propagates). -/
def Grid.addNetLoop (grid : Grid) (n : Net) : List Wire → Grid × Option PlaceNetError
  | [] => (grid, none)
  | w :: ws =>
    match (grid.cells w.z w.y w.x).add_net n with
    | .error e => (grid, some e)
    | .ok c => Grid.addNetLoop (grid.updateCell w.z w.y w.x c) n ws

/-- `Grid.place_net`: appends the net to `self.nets` first, then walks
`net.wires[1:-1]`. -/
def Grid.place_net (grid : Grid) (n : Net) : Grid × Option PlaceNetError :=
  Grid.addNetLoop { grid with nets := grid.nets ++ [n] } n ((n.wires.drop 1).dropLast)

/-- The per-cell cost computed inside the `get_cost` triple loop:
`len(occupants) + max(0, len(occupants) - 1) * 300` on non-gate cells,
gate cells skipped (`Nat` subtraction is exactly `max 0 (k - 1)`). -/
def cellCost (c : Cell) : Nat :=
  if c.is_gate then 0 else c.occupants.length + (c.occupants.length - 1) * 300

/-- The triple loop of `get_cost` over `z < NUMBER_OF_LAYERS`, `y < height`,
`x < width`, abstracted over the per-cell contribution. -/
def Grid.sumCells (grid : Grid) (f : Cell → Nat) : Nat :=
  ((List.range NUMBER_OF_LAYERS).map fun z =>
    ((List.range grid.height).map fun y =>
      ((List.range grid.width).map fun x => f (grid.cells z y x)).sum).sum).sum

/-- `Grid.get_cost`. -/
def Grid.get_cost (grid : Grid) : Nat :=
  grid.sumCells cellCost + grid.nets.length

/-- Spec-side pricing of a cell with `k` wire occupants, following the
spec's words: `k + 300*(k-1)` for `k ≥ 1` and `0` for `k = 0`. -/
def specCellCost (k : Nat) : Nat :=
  if 1 ≤ k then k + 300 * (k - 1) else 0

/-- Spec-side total cost: the spec-priced sum over all non-gate cells of all
layers (gate cells contribute 0 regardless of occupants), plus one unit per
net placed on the grid. -/
def specGridCost (grid : Grid) : Nat :=
  grid.sumCells (fun c => if c.is_gate then 0 else specCellCost c.occupants.length) +
    grid.nets.length

/-- Spec-side predicate for C5: one of the two endpoint pairings holds — the
first waypoint coincides (3D Manhattan distance 0) with one endpoint gate and
the last with the other. -/
def PairingHolds (gate_a gate_b : Gate) (wires : List Wire) : Prop :=
  ∃ w0 wn, wires.head? = some w0 ∧ wires.getLast? = some wn ∧
    ((w0.manhattanToGate gate_a = 0 ∧ wn.manhattanToGate gate_b = 0) ∨
     (w0.manhattanToGate gate_b = 0 ∧ wn.manhattanToGate gate_a = 0))

/-- The effect of one successful iteration of the `place_net` loop: the cell
at the waypoint gets the net appended to its occupants
(`Grid.Cell.add_net` in its non-gate branch). -/
def Grid.addNetWrite (grid : Grid) (n : Net) (w : Wire) : Grid :=
  grid.updateCell w.z w.y w.x
    { grid.cells w.z w.y w.x with
      occupants := (grid.cells w.z w.y w.x).occupants ++ [.net n] }

/-- All successful writes of a prefix of the `place_net` loop. -/
def writeAll (grid : Grid) (n : Net) (ws : List Wire) : Grid :=
  ws.foldl (fun g w => g.addNetWrite n w) grid

/-- A wire coordinate inside the bounds of the grid's cell array (outside it
the Python code raises `IndexError` when indexing `self._grid`). -/
def Grid.wireInRange (grid : Grid) (w : Wire) : Prop :=
  w.z < NUMBER_OF_LAYERS ∧ w.y < grid.height ∧ w.x < grid.width

instance (grid : Grid) (w : Wire) : Decidable (grid.wireInRange w) := by
  unfold Grid.wireInRange
  infer_instance

/-- Concrete gates and wires used by witnesses. -/
def gateW1 : Gate := ⟨"1", 0, 0⟩

def gateW2 : Gate := ⟨"2", 2, 0⟩

/-- A concrete grid with gates at (0,0) and (2,0) (width 4, height 2),
used by witnesses. -/
def gridW : Grid :=
  ((initGrid [gateW1, gateW2]).toOption).getD ⟨[], [], 0, 0, fun _ _ _ => Cell.empty⟩

/-- A concrete net whose path crosses the gate cell (2,0) as an interior
waypoint, used by witnesses. -/
def netW : Net := ⟨gateW1, gateW2, [⟨0, 0, 0⟩, ⟨1, 0, 0⟩, ⟨2, 0, 0⟩, ⟨3, 0, 0⟩]⟩

/-! ### The wires-field check of `check_file` (C3)

`check_file` validates each data row's `wires` field by computing
`x[2:-2].split("),(")` and matching every part against the regex
`^\d+,\d+(,\d+)?$`.  Strings are modelled as `List Char`;
`pySplit`/`splitSeq` translate Python's `str.split` (split on every
non-overlapping occurrence of a non-empty separator, left to right). -/

/-- Python `str.split` for the non-empty separator `s0 :: sep`. -/
def splitSeq (s0 : Char) (sep : List Char) : List Char → List (List Char)
  | [] => [[]]
  | c :: cs =>
    if (s0 :: sep).isPrefixOf (c :: cs) then
      [] :: splitSeq s0 sep (cs.drop sep.length)
    else
      match splitSeq s0 sep cs with
      | [] => [[c]]
      | p :: ps => (c :: p) :: ps
termination_by s => s.length
decreasing_by
  · simp only [List.length_cons, List.length_drop]
    omega
  · simp only [List.length_cons]
    omega

/-- Python `str.split(sep)` (the empty separator raises in Python and never
occurs in the source). -/
def pySplit (sep : List Char) (s : List Char) : List (List Char) :=
  match sep with
  | [] => [s]
  | c :: cs => splitSeq c cs s

/-- `^\d+$` on a part. -/
def isDigits (s : List Char) : Bool := !s.isEmpty && s.all Char.isDigit

/-- The regex `^\d+,\d+(,\d+)?$` from the wires check: two or three
non-empty digit groups separated by commas. -/
def wirePartOk (s : List Char) : Bool :=
  match pySplit [','] s with
  | [a, b] => isDigits a && isDigits b
  | [a, b, c] => isDigits a && isDigits b && isDigits c
  | _ => false

/-- Python's slice `x[2:-2]`. -/
def strip2 (s : List Char) : List Char := (s.drop 2).take (s.length - 4)

/-- The per-row wires validation of `check_file`: all parts of
`x[2:-2].split("),(")` must match the wire-coordinate regex; the row raises
the invalid-wire-coordinates failure iff this is `false`. -/
def wiresFieldOk (s : List Char) : Bool :=
  (pySplit [')', ',', '('] (strip2 s)).all wirePartOk

/-- Spec-side notion of a tuple body `<x>,<y>[,<z>]`: two or three
non-empty digit strings joined by commas (the inside of one
`(<x>,<y>[,<z>])` tuple). -/
def TupleBody (t : List Char) : Prop :=
  ∃ parts : List (List Char), (parts.length = 2 ∨ parts.length = 3) ∧
    (∀ p ∈ parts, p ≠ [] ∧ ∀ c ∈ p, c.isDigit = true) ∧
    t = List.intercalate [','] parts

/-- The spec's stated wires format: `(<x>,<y>[,<z>])` tuples concatenated
with commas in between, e.g. `(0,0),(0,1)`. -/
def specWiresField (bodies : List (List Char)) : List Char :=
  List.intercalate [','] (bodies.map fun t => '(' :: (t ++ [')']))

/-- The bracketed wires form `[(<x>,<y>[,<z>]),...]`: the tuple sequence
wrapped in one extra character on each side, so that the `x[2:-2]` slice
removes the wrapping pair together with the outermost parentheses. -/
def bracketedWiresField (bodies : List (List Char)) : List Char :=
  '[' :: (specWiresField bodies ++ [']'])

end Chips

/-! ### Lectures & Lesroosters (scheduling checks) -/

namespace Lessons

/-- One data row of the candidate schedule `output.csv`. -/
structure SchedRecord where
  student : String
  course : String
  activity : String
  day : String
  time : Nat
  room : String
deriving DecidableEq

/-- One row of the course table `vakken.csv`: course name and the declared
counts of lecture (`#Hoorcolleges`), tutorial (`#Werkcolleges`) and
practical (`#Practica`) sessions. -/
structure CourseRow where
  vak : String
  hoorcolleges : Nat
  werkcolleges : Nat
  practica : Nat
deriving DecidableEq

/-- `only_biggest_in_evening`: when the evening slot value 17 occurs, the
source requires every evening `room` value to be truthy (non-empty) and the
FIRST evening record's room (`.iloc[0]` of the `get_group(17)` group, which
keeps original row order) to equal `"C0.110"`; `true` means the check
passes, `false` that it raises the infeasibility failure. -/
def only_biggest_in_evening (schedule : List SchedRecord) : Bool :=
  if schedule.any (fun r => r.time == 17) then
    let evening := schedule.filter (fun r => r.time == 17)
    (evening.all fun r => !(r.room == "")) &&
      (match evening.head? with
       | some r => r.room == "C0.110"
       | none => true)
  else true

/-- The set of `(course, activity)` pairs present in the schedule
(`schedule.groupby(["course", "activity"])`). -/
def scheduledPairs (schedule : List SchedRecord) : List (String × String) :=
  schedule.map fun r => (r.course, r.activity)

/-- The `necessary` set built by `are_all_courses_scheduled`: the source
constructs the `h` codes twice and never constructs `p` codes for
practicals. -/
def necessaryPairs (courses : List CourseRow) : List (String × String) :=
  courses.flatMap fun row =>
    ((List.range row.hoorcolleges).map fun j => (row.vak, "h" ++ toString (j + 1))) ++
    ((List.range row.werkcolleges).map fun j => (row.vak, "w" ++ toString (j + 1))) ++
    ((List.range row.hoorcolleges).map fun j => (row.vak, "h" ++ toString (j + 1)))

/-- `are_all_courses_scheduled`: passes iff `necessary.issubset(scheduled)`
(membership-based subset, so list duplicates are irrelevant). -/
def are_all_courses_scheduled (courses : List CourseRow) (schedule : List SchedRecord) : Bool :=
  (necessaryPairs courses).all fun p => (scheduledPairs schedule).contains p

/-- Spec-side required activity instances per the claim: `(course, h1..hH)`,
`(course, w1..wW)` and `(course, p1..pP)` from each course's declared
counts. -/
def requiredPairs (courses : List CourseRow) : List (String × String) :=
  courses.flatMap fun row =>
    ((List.range row.hoorcolleges).map fun j => (row.vak, "h" ++ toString (j + 1))) ++
    ((List.range row.werkcolleges).map fun j => (row.vak, "w" ++ toString (j + 1))) ++
    ((List.range row.practica).map fun j => (row.vak, "p" ++ toString (j + 1)))

/-- Failing input for C2: one course with one lecture, no tutorials and one
practical. -/
def courseRowsW : List CourseRow := [⟨"A", 1, 0, 1⟩]

/-- A schedule that covers the lecture `h1` but no practical. -/
def scheduleW : List SchedRecord := [⟨"s1", "A", "h1", "ma", 9, "C0.110"⟩]

/-- Failing input for C4: the first evening record uses the largest room
but the second does not. -/
def eveningScheduleW : List SchedRecord :=
  [⟨"s1", "A", "h1", "ma", 17, "C0.110"⟩, ⟨"s2", "B", "h1", "ma", 17, "A1.04"⟩]

end Lessons

/-! ### Rush Hour (vehicle board engine) -/

namespace Rush

/-- `Vehicle` from `rush_hour/checks/__init__.py`: name, orientation
(`"V"` for vertical, anything else horizontal), length. -/
structure Vehicle where
  name : String
  orientation : String
  length : Nat
deriving DecidableEq

/-- Python `Vehicle.__eq__` (and `__ne__`): equality is by name only. -/
def Vehicle.eqPy (v w : Vehicle) : Bool := v.name == w.name

/-- The failure kinds of the board engine: `WallHit`, `Collision`, and the
`TypeError` Python would raise when `location_of` returns `None` and the
caller unpacks it. -/
inductive BoardError where
  | wallHit
  | collision
  | vehicleMissing
deriving DecidableEq

/-- `Board`: the `size × size` occupancy array `_board[col][row]` modelled
as a total function (`EMPTY_TILE` is `none`); only cells inside
`[0,size) × [0,size)` are ever written or scanned.  Coordinates are `Int`
because a unit move can produce a negative candidate anchor, which the
bounds check must then reject. -/
structure Board where
  size : Nat
  vehicles : List Vehicle
  grid : Int → Int → Option Vehicle

/-- `Board.__init__`. -/
def emptyBoard (size : Nat) : Board := ⟨size, [], fun _ _ => none⟩

/-- The `locations` list computed by `Board.place`: the cells occupied by a
vehicle anchored at `(col, row)`. -/
def Vehicle.locations (v : Vehicle) (col row : Int) : List (Int × Int) :=
  if v.orientation == "V" then (List.range v.length).map fun (i : Nat) => (col, row + (i : Int))
  else (List.range v.length).map fun (i : Nat) => (col + (i : Int), row)

/-- `col in range(self.size) and row in range(self.size)`. -/
def inRangeCell (size : Nat) (q : Int × Int) : Prop :=
  0 ≤ q.1 ∧ q.1 < (size : Int) ∧ 0 ≤ q.2 ∧ q.2 < (size : Int)

instance (size : Nat) (q : Int × Int) : Decidable (inRangeCell size q) := by
  unfold inRangeCell
  infer_instance

/-- The write loop of `Board.place`: per cell, bounds check (`WallHit`)
first, then occupancy check (`Collision`), then write.  On failure the
partially written grid is discarded (Python mutates in place, but the
exception aborts the whole check, so the partial state is never reused on a
success path). -/
def writeCells (size : Nat) (v : Vehicle) :
    List (Int × Int) → (Int → Int → Option Vehicle) →
      Except BoardError (Int → Int → Option Vehicle)
  | [], g => .ok g
  | q :: qs, g =>
    if ¬ inRangeCell size q then .error .wallHit
    else if (g q.1 q.2).isSome then .error .collision
    else writeCells size v qs fun c r => if c = q.1 ∧ r = q.2 then some v else g c r

/-- `Board.place`: write all locations, then append the vehicle to
`self.vehicles`. -/
def Board.place (b : Board) (v : Vehicle) (col row : Int) : Except BoardError Board :=
  (writeCells b.size v (v.locations col row) b.grid).map fun g =>
    { b with grid := g, vehicles := b.vehicles ++ [v] }

/-- The scan order of `Board.location_of`:
`for row in range(size): for col in range(size)`. -/
def scanCells (size : Nat) : List (Int × Int) :=
  (List.range size).flatMap fun (row : Nat) =>
    (List.range size).map fun (col : Nat) => ((col : Int), (row : Int))

/-- `Board.location_of`: the first scanned cell whose occupant equals (by
name) the vehicle; `none` when the vehicle is not on the board. -/
def Board.location_of (b : Board) (v : Vehicle) : Option (Int × Int) :=
  (scanCells b.size).find? fun q =>
    match b.grid q.1 q.2 with
    | some w => w.eqPy v
    | none => false

/-- One unit move of `Board.move`: build a fresh board, re-place every
*other* vehicle of the original board (`self.vehicles`) at its current
location on the cursor board, then place the moving vehicle with its anchor
shifted by `δ` (`row` for vertical, `col` otherwise). -/
def Board.moveUnit (orig cursor : Board) (v : Vehicle) (δ : Int) : Except BoardError Board := do
  let others := orig.vehicles.filter fun w => !w.eqPy v
  let afterOthers ← others.foldlM
    (fun nb ov =>
      match cursor.location_of ov with
      | none => Except.error BoardError.vehicleMissing
      | some q => nb.place ov q.1 q.2)
    (emptyBoard cursor.size)
  match cursor.location_of v with
  | none => Except.error BoardError.vehicleMissing
  | some q =>
    if v.orientation == "V" then afterOthers.place v q.1 (q.2 + δ)
    else afterOthers.place v (q.1 + δ) q.2

/-- `Board.move`: decompose `steps` into unit moves of `1` (when
`steps >= 0`) or `-1`, threading the cursor board. -/
def Board.move (b : Board) (v : Vehicle) (steps : Int) : Except BoardError Board :=
  (if 0 ≤ steps then List.replicate steps.toNat (1 : Int)
   else List.replicate (-steps).toNat (-1 : Int)).foldlM
    (fun cursor δ => Board.moveUnit b cursor v δ) b

/-- A vehicle together with an anchor, as read from one row of the board
layout file. -/
structure Placement where
  vehicle : Vehicle
  col : Int
  row : Int
deriving DecidableEq

def Placement.cells (p : Placement) : List (Int × Int) :=
  p.vehicle.locations p.col p.row

/-- The placement loop of `Board.load`: place every vehicle in order on an
empty board (`load` additionally asserts each placed vehicle is retrievable
at its anchor). -/
def placeAll (size : Nat) (ps : List Placement) : Except BoardError Board :=
  ps.foldlM (fun b p => b.place p.vehicle p.col p.row) (emptyBoard size)

/-- The occupant of a cell as determined by a placement list: the vehicle of
the first placement whose footprint covers the cell. -/
def occOf (ps : List Placement) (c r : Int) : Option Vehicle :=
  (ps.find? fun p => p.cells.contains (c, r)).map fun p => p.vehicle

/-- The board-state invariant maintained by successful placements: the
vehicle list matches the placements, every footprint is in range, footprints
are pairwise disjoint, and the grid is exactly the footprint union. -/
structure Represents (b : Board) (size : Nat) (ps : List Placement) : Prop where
  size_eq : b.size = size
  vehicles_eq : b.vehicles = ps.map fun p => p.vehicle
  cells_inRange : ∀ p ∈ ps, ∀ q ∈ p.cells, inRangeCell size q
  disjoint : ps.Pairwise fun p1 p2 => ∀ q ∈ p1.cells, q ∉ p2.cells
  grid_eq : ∀ c r, b.grid c r = occOf ps c r

/-- The anchor shift of one unit move (`row += move` for vertical
orientation, `col += move` otherwise). -/
def shiftAnchor (v : Vehicle) (q : Int × Int) (δ : Int) : Int × Int :=
  if v.orientation == "V" then (q.1, q.2 + δ) else (q.1 + δ, q.2)

/-- Concrete vehicles and boards for witnesses and counterexamples. -/
def vehX : Vehicle := ⟨"X", "H", 1⟩

def vehA : Vehicle := ⟨"A", "H", 1⟩

def vehB : Vehicle := ⟨"B", "H", 2⟩

def psW : List Placement := [⟨vehX, 0, 0⟩]

def boardW : Board := ((placeAll 2 psW).toOption).getD (emptyBoard 0)

def boardW1 : Board := ((boardW.move vehX 1).toOption).getD (emptyBoard 0)

def boardW2 : Board := ((boardW1.move vehX (-1)).toOption).getD (emptyBoard 0)

/-- A 1×1 board holding vehicle `A`, used by the C8 counterexample. -/
def boardC8 : Board := (((emptyBoard 1).place vehA 0 0).toOption).getD (emptyBoard 0)

end Rush

end TheorieCheck

namespace TheorieCheck

namespace Chips

/-! ### Theorems: cost model (C1) -/

lemma cellCost_eq_spec (c : Cell) :
    cellCost c = if c.is_gate then 0 else specCellCost c.occupants.length := by
  unfold cellCost specCellCost
  cases c.is_gate
  · simp only [Bool.false_eq_true, if_false]
    cases c.occupants.length with
    | zero => simp
    | succ k => simp [Nat.succ_sub_one, Nat.mul_comm]
  · simp

/-- C1: for every grid state, `get_cost` equals the spec's pricing: the sum
over all cells of all 8 layers of `k + 300*(k-1)` for occupant count `k ≥ 1`
(0 for `k = 0`, and 0 for gate cells regardless of occupants), plus one unit
per net placed on the grid. -/
theorem get_cost_eq_specGridCost (grid : Grid) : grid.get_cost = specGridCost grid := by
  have h : cellCost = fun c => if c.is_gate then 0 else specCellCost c.occupants.length :=
    funext cellCost_eq_spec
  unfold Grid.get_cost specGridCost
  rw [h]

/-! ### Theorems: net construction (C5, C6) -/

lemma check_connected_iff (gate_a gate_b : Gate) (wires : List Wire) (h : wires ≠ []) :
    check_connected gate_a gate_b wires = true ↔ PairingHolds gate_a gate_b wires := by
  obtain ⟨w, ws, rfl⟩ := List.exists_cons_of_ne_nil h
  have hl : (w :: ws).getLast? = some ((w :: ws).getLast (by simp)) :=
    List.getLast?_eq_getLast _ _
  unfold check_connected PairingHolds
  simp only [List.head?_cons, hl, Option.some.injEq, Wire.is_connected_to_gate, beq_iff_eq,
    Bool.or_eq_true, Bool.and_eq_true]
  constructor
  · intro hb
    exact ⟨_, _, rfl, rfl, hb⟩
  · rintro ⟨w0, wn, h1, h2, hcase⟩
    subst h1
    subst h2
    exact hcase

/-- C5: for a non-empty waypoint list, constructing the net yields the
`unconnected` failure kind — and no other outcome — exactly when neither
endpoint pairing holds. -/
theorem mkNet_unconnected_iff (gate_a gate_b : Gate) (wires : List Wire) (h : wires ≠ []) :
    mkNet gate_a gate_b wires = .error .unconnected ↔ ¬ PairingHolds gate_a gate_b wires := by
  rw [← check_connected_iff gate_a gate_b wires h]
  unfold mkNet
  cases hc : check_connected gate_a gate_b wires <;>
    cases hk : check_continuous wires <;> simp

/-- Witness for C5: a path touching neither gate fails with the
`unconnected` kind; the theorem is applied at a concrete input. -/
theorem mkNet_unconnected_iff_witness :
    mkNet gateW1 gateW2 [⟨5, 5, 0⟩] = .error .unconnected ↔
      ¬ PairingHolds gateW1 gateW2 [⟨5, 5, 0⟩] :=
  mkNet_unconnected_iff gateW1 gateW2 [⟨5, 5, 0⟩] (by decide)

lemma check_continuous_iff : ∀ wires : List Wire,
    check_continuous wires = true ↔ ∀ p ∈ wires.zip wires.tail, p.1.manhattanToWire p.2 = 1
  | [] => by simp [check_continuous]
  | [w] => by simp [check_continuous]
  | w1 :: w2 :: rest => by
    rw [check_continuous]
    have ih := check_continuous_iff (w2 :: rest)
    simp only [Bool.and_eq_true, ih, List.tail_cons, List.zip_cons_cons, List.mem_cons,
      Wire.is_neighbor_of_wire, beq_iff_eq]
    constructor
    · rintro ⟨h1, h2⟩ p hp
      rcases hp with rfl | hp
      · exact h1
      · exact h2 p hp
    · intro hall
      exact ⟨hall _ (Or.inl rfl), fun p hp => hall p (Or.inr hp)⟩

lemma mkNet_eq_interrupted_of (gate_a gate_b : Gate) (wires : List Wire)
    (hc : check_connected gate_a gate_b wires = true) (hk : check_continuous wires = false) :
    mkNet gate_a gate_b wires = .error .interrupted := by
  unfold mkNet
  rw [hc, hk]
  rfl

lemma mkNet_eq_ok_of (gate_a gate_b : Gate) (wires : List Wire)
    (hc : check_connected gate_a gate_b wires = true) (hk : check_continuous wires = true) :
    mkNet gate_a gate_b wires = .ok ⟨gate_a, gate_b, wires⟩ := by
  unfold mkNet
  rw [hc, hk]
  rfl

/-- C6: for a net whose endpoints anchor correctly to its gates,
construction fails with the `discontinuous` kind exactly when some pair of
consecutive waypoints has 3D Manhattan distance different from 1, and
succeeds exactly when every consecutive pair has distance exactly 1. -/
theorem mkNet_continuity (gate_a gate_b : Gate) (wires : List Wire) (h : wires ≠ [])
    (hanchor : PairingHolds gate_a gate_b wires) :
    (mkNet gate_a gate_b wires = .error .interrupted ↔
       ∃ p ∈ wires.zip wires.tail, p.1.manhattanToWire p.2 ≠ 1) ∧
    (mkNet gate_a gate_b wires = .ok ⟨gate_a, gate_b, wires⟩ ↔
       ∀ p ∈ wires.zip wires.tail, p.1.manhattanToWire p.2 = 1) := by
  have hcc : check_connected gate_a gate_b wires = true :=
    (check_connected_iff gate_a gate_b wires h).mpr hanchor
  have hiff := check_continuous_iff wires
  cases hk : check_continuous wires
  · rw [hk] at hiff
    have hex : ∃ p ∈ wires.zip wires.tail, p.1.manhattanToWire p.2 ≠ 1 := by
      have : ¬ ∀ p ∈ wires.zip wires.tail, p.1.manhattanToWire p.2 = 1 := by
        intro hall
        exact absurd (hiff.mpr hall) (by simp)
      push_neg at this
      exact this
    have heq := mkNet_eq_interrupted_of gate_a gate_b wires hcc hk
    rw [heq]
    constructor
    · simp only [true_iff]
      exact hex
    · constructor
      · intro hcontr
        simp at hcontr
      · intro hall
        obtain ⟨p, hp, hne⟩ := hex
        exact absurd (hall p hp) hne
  · rw [hk] at hiff
    have hall : ∀ p ∈ wires.zip wires.tail, p.1.manhattanToWire p.2 = 1 := hiff.mp rfl
    have heq := mkNet_eq_ok_of gate_a gate_b wires hcc hk
    rw [heq]
    constructor
    · constructor
      · intro hcontr
        simp at hcontr
      · rintro ⟨p, hp, hne⟩
        exact absurd (hall p hp) hne
    · simp only [true_iff]
      exact hall

/-- Witness for C6: a path with a distance-2 gap fails with the
`discontinuous` kind; the theorem is applied at a concrete input. -/
theorem mkNet_continuity_witness :
    (mkNet gateW1 gateW2 [⟨0, 0, 0⟩, ⟨2, 0, 0⟩] = .error .interrupted ↔
       ∃ p ∈ ([⟨0, 0, 0⟩, ⟨2, 0, 0⟩] : List Wire).zip [⟨2, 0, 0⟩],
         p.1.manhattanToWire p.2 ≠ 1) ∧
    (mkNet gateW1 gateW2 [⟨0, 0, 0⟩, ⟨2, 0, 0⟩] = .ok ⟨gateW1, gateW2, [⟨0, 0, 0⟩, ⟨2, 0, 0⟩]⟩ ↔
       ∀ p ∈ ([⟨0, 0, 0⟩, ⟨2, 0, 0⟩] : List Wire).zip [⟨2, 0, 0⟩],
         p.1.manhattanToWire p.2 = 1) :=
  mkNet_continuity gateW1 gateW2 [⟨0, 0, 0⟩, ⟨2, 0, 0⟩] (by decide)
    ⟨⟨0, 0, 0⟩, ⟨2, 0, 0⟩, rfl, rfl, Or.inl ⟨by decide, by decide⟩⟩

/-! ### Theorems: duplicate gate placement (C9) -/

lemma place_gate_error (grid : Grid) (g : Gate)
    (h : (grid.cells 0 g.y g.x).is_gate = true) :
    grid.place_gate g = .error .duplicateGatePlacement := by
  unfold Grid.place_gate Cell.set_as_gate
  rw [h]
  rfl

lemma place_gate_ok (grid : Grid) (g : Gate)
    (h : (grid.cells 0 g.y g.x).is_gate = false) :
    grid.place_gate g = .ok (grid.updateCell 0 g.y g.x ⟨[.gate g], true⟩) := by
  unfold Grid.place_gate Cell.set_as_gate
  rw [h]
  rfl

lemma updateCell_cells (grid : Grid) (z y x : Nat) (c : Cell) (z' y' x' : Nat) :
    (grid.updateCell z y x c).cells z' y' x' =
      if z' = z ∧ y' = y ∧ x' = x then c else grid.cells z' y' x' := rfl

lemma foldlM_place_gate_error : ∀ (gates : List Gate) (grid : Grid),
    ((∃ g ∈ gates, (grid.cells 0 g.y g.x).is_gate = true) ∨
      ¬ (gates.map fun g => (g.x, g.y)).Nodup) →
    gates.foldlM Grid.place_gate grid = .error .duplicateGatePlacement
  | [], _ => by
    rintro (⟨g, hg, _⟩ | hdup)
    · simp at hg
    · simp at hdup
  | g :: gs, grid => by
    intro h
    rw [List.foldlM_cons]
    by_cases hg : (grid.cells 0 g.y g.x).is_gate = true
    · rw [place_gate_error grid g hg]
      rfl
    · have hg' : (grid.cells 0 g.y g.x).is_gate = false := by
        cases hgg : (grid.cells 0 g.y g.x).is_gate
        · rfl
        · exact absurd hgg hg
      rw [place_gate_ok grid g hg']
      show gs.foldlM Grid.place_gate (grid.updateCell 0 g.y g.x ⟨[.gate g], true⟩) = _
      apply foldlM_place_gate_error
      rcases h with ⟨g', hmem, hgate⟩ | hdup
      · rcases List.mem_cons.mp hmem with rfl | hmem'
        · exact absurd hgate hg
        · left
          refine ⟨g', hmem', ?_⟩
          rw [updateCell_cells]
          by_cases hc : g'.y = g.y ∧ g'.x = g.x
          · rw [if_pos ⟨rfl, hc.1, hc.2⟩]
          · rw [if_neg (fun hh => hc ⟨hh.2.1, hh.2.2⟩)]
            exact hgate
      · rw [List.map_cons, List.nodup_cons] at hdup
        push_neg at hdup
        by_cases hin : (g.x, g.y) ∈ gs.map fun g => (g.x, g.y)
        · obtain ⟨g', hmem', heq⟩ := List.mem_map.mp hin
          left
          refine ⟨g', hmem', ?_⟩
          have hx : g'.x = g.x := congrArg Prod.fst heq
          have hy : g'.y = g.y := congrArg Prod.snd heq
          rw [updateCell_cells]
          simp [hx, hy]
        · right
          exact hdup hin

/-- C9: whenever two gates in the layout occupy the same `(x, y)` cell,
building the grid fails with the duplicate-gate-placement failure (the
`assert not self.is_gate` in `Grid.Cell.set_as_gate`). -/
theorem initGrid_duplicate (gates : List Gate)
    (hdup : ¬ (gates.map fun g => (g.x, g.y)).Nodup) :
    initGrid gates = .error .duplicateGatePlacement := by
  unfold initGrid
  exact foldlM_place_gate_error gates _ (Or.inr hdup)

/-- Witness for C9: two gates at (0,0). -/
theorem initGrid_duplicate_witness :
    initGrid [⟨"1", 0, 0⟩, ⟨"2", 0, 0⟩] = .error .duplicateGatePlacement :=
  initGrid_duplicate [⟨"1", 0, 0⟩, ⟨"2", 0, 0⟩] (by decide)

/-! ### Theorems: partial mutation on `place_net` failure (C10) -/

lemma addNetWrite_cells (grid : Grid) (n : Net) (w : Wire) (z y x : Nat) :
    (grid.addNetWrite n w).cells z y x =
      if z = w.z ∧ y = w.y ∧ x = w.x then
        { grid.cells w.z w.y w.x with
          occupants := (grid.cells w.z w.y w.x).occupants ++ [.net n] }
      else grid.cells z y x := rfl

lemma addNetWrite_is_gate (grid : Grid) (n : Net) (w : Wire) (z y x : Nat) :
    ((grid.addNetWrite n w).cells z y x).is_gate = (grid.cells z y x).is_gate := by
  rw [addNetWrite_cells]
  by_cases hc : z = w.z ∧ y = w.y ∧ x = w.x
  · obtain ⟨rfl, rfl, rfl⟩ := hc
    simp
  · simp [hc]

lemma addNetLoop_cons_gate (grid : Grid) (n : Net) (w : Wire) (ws : List Wire)
    (h : (grid.cells w.z w.y w.x).is_gate = true) :
    Grid.addNetLoop grid n (w :: ws) = (grid, some .occupiedByGate) := by
  have hstep : (grid.cells w.z w.y w.x).add_net n = .error .occupiedByGate := by
    unfold Cell.add_net
    rw [h]
    rfl
  simp only [Grid.addNetLoop]
  rw [hstep]

lemma addNetLoop_cons_ok (grid : Grid) (n : Net) (w : Wire) (ws : List Wire)
    (h : (grid.cells w.z w.y w.x).is_gate = false) :
    Grid.addNetLoop grid n (w :: ws) = Grid.addNetLoop (grid.addNetWrite n w) n ws := by
  have hstep : (grid.cells w.z w.y w.x).add_net n =
      .ok { grid.cells w.z w.y w.x with
        occupants := (grid.cells w.z w.y w.x).occupants ++ [.net n] } := by
    unfold Cell.add_net
    rw [if_neg (by simp [h])]
  simp only [Grid.addNetLoop]
  rw [hstep]
  rfl

lemma addNetLoop_split (n : Net) (wbad : Wire) (post : List Wire) :
    ∀ (pre : List Wire) (grid : Grid),
    (∀ w ∈ pre, (grid.cells w.z w.y w.x).is_gate = false) →
    (grid.cells wbad.z wbad.y wbad.x).is_gate = true →
    Grid.addNetLoop grid n (pre ++ wbad :: post) = (writeAll grid n pre, some .occupiedByGate)
  | [], grid => fun _ hbad => by
    rw [List.nil_append, addNetLoop_cons_gate grid n wbad post hbad]
    rfl
  | w :: pre, grid => fun hpre hbad => by
    rw [List.cons_append,
      addNetLoop_cons_ok grid n w _ (hpre w (List.mem_cons_self _ _))]
    have hrec := addNetLoop_split n wbad post pre (grid.addNetWrite n w)
      (fun w' hw' => by
        rw [addNetWrite_is_gate]
        exact hpre w' (List.mem_cons_of_mem _ hw'))
      (by rw [addNetWrite_is_gate]; exact hbad)
    rw [hrec]
    rfl

lemma writeAll_nets (n : Net) : ∀ (ws : List Wire) (grid : Grid),
    (writeAll grid n ws).nets = grid.nets
  | [], _ => rfl
  | _ :: ws, _ => writeAll_nets n ws _

lemma mem_occupants_addNetWrite (grid : Grid) (n : Net) (w : Wire) (z y x : Nat)
    (o : Occupant) (h : o ∈ (grid.cells z y x).occupants) :
    o ∈ ((grid.addNetWrite n w).cells z y x).occupants := by
  rw [addNetWrite_cells]
  by_cases hc : z = w.z ∧ y = w.y ∧ x = w.x
  · obtain ⟨rfl, rfl, rfl⟩ := hc
    rw [if_pos (show w.z = w.z ∧ w.y = w.y ∧ w.x = w.x from ⟨rfl, rfl, rfl⟩)]
    exact List.mem_append_left _ h
  · rw [if_neg hc]
    exact h

lemma mem_occupants_writeAll (n : Net) (z y x : Nat) (o : Occupant) :
    ∀ (ws : List Wire) (grid : Grid), o ∈ (grid.cells z y x).occupants →
      o ∈ ((writeAll grid n ws).cells z y x).occupants
  | [], _ => fun h => h
  | w :: ws, grid => fun h =>
    mem_occupants_writeAll n z y x o ws _ (mem_occupants_addNetWrite grid n w z y x o h)

lemma writeAll_mem (n : Net) : ∀ (pre : List Wire) (grid : Grid) (w : Wire), w ∈ pre →
    Occupant.net n ∈ ((writeAll grid n pre).cells w.z w.y w.x).occupants
  | [], _, w => fun h => by simp at h
  | p :: pre, grid, w => fun h => by
    rcases List.mem_cons.mp h with rfl | hmem
    · show Occupant.net n ∈ ((writeAll (grid.addNetWrite n w) n pre).cells w.z w.y w.x).occupants
      apply mem_occupants_writeAll
      rw [addNetWrite_cells]
      rw [if_pos (show w.z = w.z ∧ w.y = w.y ∧ w.x = w.x from ⟨rfl, rfl, rfl⟩)]
      exact List.mem_append_right _ (List.mem_singleton.mpr rfl)
    · exact writeAll_mem n pre _ w hmem

lemma sum_map_add_one_le {α : Type} (f h : α → Nat) (a0 : α) :
    ∀ l : List α, (∀ a ∈ l, f a ≤ h a) → a0 ∈ l → f a0 + 1 ≤ h a0 →
      (l.map f).sum + 1 ≤ (l.map h).sum
  | [], _, ha0, _ => by simp at ha0
  | b :: l, hle, ha0, hlt => by
    simp only [List.map_cons, List.sum_cons]
    rcases List.mem_cons.mp ha0 with rfl | hmem
    · have h2 : (l.map f).sum ≤ (l.map h).sum :=
        List.sum_le_sum fun a ha => hle a (List.mem_cons_of_mem _ ha)
      omega
    · have h1 : f b ≤ h b := hle b (List.mem_cons_self _ _)
      have h2 := sum_map_add_one_le f h a0 l
        (fun a ha => hle a (List.mem_cons_of_mem _ ha)) hmem hlt
      omega

lemma cellCost_append_le (c : Cell) (n : Net) :
    cellCost c ≤ cellCost { c with occupants := c.occupants ++ [.net n] } := by
  unfold cellCost
  cases c.is_gate
  · simp only [Bool.false_eq_true, if_false, List.length_append, List.length_singleton]
    omega
  · simp

lemma cellCost_append_lt (c : Cell) (n : Net) (h : c.is_gate = false) :
    cellCost c + 1 ≤ cellCost { c with occupants := c.occupants ++ [.net n] } := by
  unfold cellCost
  rw [h]
  simp only [Bool.false_eq_true, if_false, List.length_append, List.length_singleton]
  omega

lemma get_cost_addNetWrite (grid : Grid) (n : Net) (w : Wire)
    (hr : grid.wireInRange w) (hg : (grid.cells w.z w.y w.x).is_gate = false) :
    grid.get_cost + 1 ≤ (grid.addNetWrite n w).get_cost := by
  obtain ⟨hz, hy, hx⟩ := hr
  have hcell : ∀ z y x, ¬(z = w.z ∧ y = w.y ∧ x = w.x) →
      (grid.addNetWrite n w).cells z y x = grid.cells z y x := by
    intro z y x hne
    rw [addNetWrite_cells]
    simp [hne]
  have hcellw : (grid.addNetWrite n w).cells w.z w.y w.x =
      { grid.cells w.z w.y w.x with
        occupants := (grid.cells w.z w.y w.x).occupants ++ [.net n] } := by
    rw [addNetWrite_cells]
    simp
  have hxlevel :
      ((List.range grid.width).map fun x => cellCost (grid.cells w.z w.y x)).sum + 1 ≤
      ((List.range grid.width).map fun x => cellCost ((grid.addNetWrite n w).cells w.z w.y x)).sum := by
    refine sum_map_add_one_le _ _ w.x (List.range grid.width) ?_ (List.mem_range.mpr hx) ?_
    · intro x _
      by_cases hxe : x = w.x
      · subst hxe
        rw [hcellw]
        exact cellCost_append_le _ n
      · rw [hcell w.z w.y x (fun hc => hxe hc.2.2)]
    · rw [hcellw]
      exact cellCost_append_lt _ n hg
  have hylevel :
      ((List.range grid.height).map fun y =>
        ((List.range grid.width).map fun x => cellCost (grid.cells w.z y x)).sum).sum + 1 ≤
      ((List.range grid.height).map fun y =>
        ((List.range grid.width).map fun x => cellCost ((grid.addNetWrite n w).cells w.z y x)).sum).sum := by
    refine sum_map_add_one_le _ _ w.y (List.range grid.height) ?_ (List.mem_range.mpr hy) ?_
    · intro y _
      by_cases hye : y = w.y
      · subst hye
        omega
      · have heq : ∀ x ∈ List.range grid.width,
            cellCost ((grid.addNetWrite n w).cells w.z y x) = cellCost (grid.cells w.z y x) := by
          intro x _
          rw [hcell w.z y x (fun hc => hye hc.2.1)]
        rw [List.map_congr_left heq]
    · exact hxlevel
  have hzlevel :
      ((List.range NUMBER_OF_LAYERS).map fun z =>
        ((List.range grid.height).map fun y =>
          ((List.range grid.width).map fun x => cellCost (grid.cells z y x)).sum).sum).sum + 1 ≤
      ((List.range NUMBER_OF_LAYERS).map fun z =>
        ((List.range grid.height).map fun y =>
          ((List.range grid.width).map fun x => cellCost ((grid.addNetWrite n w).cells z y x)).sum).sum).sum := by
    refine sum_map_add_one_le _ _ w.z (List.range NUMBER_OF_LAYERS) ?_ (List.mem_range.mpr hz) ?_
    · intro z _
      by_cases hze : z = w.z
      · subst hze
        omega
      · have heq : ∀ y ∈ List.range grid.height,
            ((List.range grid.width).map fun x => cellCost ((grid.addNetWrite n w).cells z y x)).sum =
            ((List.range grid.width).map fun x => cellCost (grid.cells z y x)).sum := by
          intro y _
          have heq2 : ∀ x ∈ List.range grid.width,
              cellCost ((grid.addNetWrite n w).cells z y x) = cellCost (grid.cells z y x) := by
            intro x _
            rw [hcell z y x (fun hc => hze hc.1)]
          rw [List.map_congr_left heq2]
        rw [List.map_congr_left heq]
    · exact hylevel
  show grid.sumCells cellCost + grid.nets.length + 1 ≤
    (grid.addNetWrite n w).sumCells cellCost + (grid.addNetWrite n w).nets.length
  have hnets : (grid.addNetWrite n w).nets = grid.nets := rfl
  unfold Grid.sumCells
  rw [hnets]
  have hw : (grid.addNetWrite n w).width = grid.width := rfl
  have hh : (grid.addNetWrite n w).height = grid.height := rfl
  rw [hw, hh]
  omega

lemma get_cost_writeAll (n : Net) : ∀ (pre : List Wire) (grid : Grid),
    (∀ w ∈ pre, grid.wireInRange w ∧ (grid.cells w.z w.y w.x).is_gate = false) →
    grid.get_cost + pre.length ≤ (writeAll grid n pre).get_cost
  | [], grid => fun _ => by simp [writeAll]
  | w :: pre, grid => fun h => by
    have hw := h w (List.mem_cons_self _ _)
    have h1 := get_cost_addNetWrite grid n w hw.1 hw.2
    have h2 := get_cost_writeAll n pre (grid.addNetWrite n w)
      (fun w' hw' => by
        have hthis := h w' (List.mem_cons_of_mem _ hw')
        refine ⟨hthis.1, ?_⟩
        rw [addNetWrite_is_gate]
        exact hthis.2)
    show grid.get_cost + (pre.length + 1) ≤ (writeAll (grid.addNetWrite n w) n pre).get_cost
    omega

/-- C10: when `place_net` fails with `OccupiedByGateError` because an
interior waypoint lands on a gate cell, the grid is not left unchanged: the
net is already in the grid's net list, every interior waypoint preceding the
offending one keeps the net as an occupant, and a subsequent `get_cost`
counts both the per-net `+1` correction and the already-placed segments. -/
theorem place_net_mutates_on_failure (grid : Grid) (n : Net) (pre post : List Wire) (wbad : Wire)
    (hsplit : (n.wires.drop 1).dropLast = pre ++ wbad :: post)
    (hpre : ∀ w ∈ pre, grid.wireInRange w ∧ (grid.cells w.z w.y w.x).is_gate = false)
    (hbad : (grid.cells wbad.z wbad.y wbad.x).is_gate = true) :
    (grid.place_net n).2 = some .occupiedByGate ∧
    (grid.place_net n).1.nets = grid.nets ++ [n] ∧
    (∀ w ∈ pre, Occupant.net n ∈ ((grid.place_net n).1.cells w.z w.y w.x).occupants) ∧
    grid.get_cost + 1 + pre.length ≤ (grid.place_net n).1.get_cost := by
  unfold Grid.place_net
  rw [hsplit]
  have hloop := addNetLoop_split n wbad post pre { grid with nets := grid.nets ++ [n] }
    (fun w hw => (hpre w hw).2) hbad
  rw [hloop]
  have hc0 : Grid.get_cost { grid with nets := grid.nets ++ [n] } = grid.get_cost + 1 := by
    unfold Grid.get_cost
    have hs : Grid.sumCells { grid with nets := grid.nets ++ [n] } cellCost =
        grid.sumCells cellCost := rfl
    rw [hs]
    simp only [List.length_append, List.length_singleton]
    omega
  refine ⟨rfl, ?_, ?_, ?_⟩
  · rw [writeAll_nets]
  · intro w hw
    exact writeAll_mem n pre _ w hw
  · have h2 := get_cost_writeAll n pre { grid with nets := grid.nets ++ [n] }
      (fun w hw => ⟨(hpre w hw).1, (hpre w hw).2⟩)
    show grid.get_cost + 1 + pre.length ≤
      (writeAll { grid with nets := grid.nets ++ [n] } n pre).get_cost
    omega

/-- Witness for C10: on the concrete grid with gates (0,0) and (2,0), the
net routed (0,0)→(1,0)→(2,0)→(3,0) fails on the gate cell (2,0) after
placing its first interior waypoint. -/
theorem place_net_mutates_on_failure_witness :
    (gridW.place_net netW).2 = some .occupiedByGate ∧
    (gridW.place_net netW).1.nets = gridW.nets ++ [netW] ∧
    (∀ w ∈ [(⟨1, 0, 0⟩ : Wire)],
      Occupant.net netW ∈ ((gridW.place_net netW).1.cells w.z w.y w.x).occupants) ∧
    gridW.get_cost + 1 + [(⟨1, 0, 0⟩ : Wire)].length ≤ (gridW.place_net netW).1.get_cost :=
  place_net_mutates_on_failure gridW netW [⟨1, 0, 0⟩] [] ⟨2, 0, 0⟩ rfl (by decide) (by decide)

/-! ### Theorems: the wires-field structural check (C3) -/

lemma isPrefixOf_self_append (l r : List Char) : l.isPrefixOf (l ++ r) = true := by
  induction l with
  | nil => simp [List.isPrefixOf]
  | cons c l ih => simp [List.isPrefixOf, ih]

lemma splitSeq_no_sep (s0 : Char) (sep : List Char) :
    ∀ p : List Char, (∀ c ∈ p, c ≠ s0) → splitSeq s0 sep p = [p]
  | [], _ => by simp [splitSeq]
  | c :: cs, h => by
    have hc : c ≠ s0 := h c (List.mem_cons_self _ _)
    have ih := splitSeq_no_sep s0 sep cs fun c' hc' => h c' (List.mem_cons_of_mem _ hc')
    have hpre : ¬ ((s0 :: sep).isPrefixOf (c :: cs) = true) := by
      simp only [List.isPrefixOf, Bool.and_eq_true, beq_iff_eq]
      intro hand
      exact hc hand.1.symm
    simp only [splitSeq, if_neg hpre, ih]

lemma splitSeq_append (s0 : Char) (sep : List Char) :
    ∀ (p rest : List Char), (∀ c ∈ p, c ≠ s0) →
      splitSeq s0 sep (p ++ (s0 :: sep) ++ rest) = p :: splitSeq s0 sep rest
  | [], rest, _ => by
    have hshape : ([] : List Char) ++ (s0 :: sep) ++ rest = s0 :: (sep ++ rest) := by simp
    rw [hshape]
    have hpre : (s0 :: sep).isPrefixOf (s0 :: (sep ++ rest)) = true := by
      simp only [List.isPrefixOf, Bool.and_eq_true, beq_iff_eq]
      exact ⟨trivial, isPrefixOf_self_append sep rest⟩
    simp only [splitSeq, if_pos hpre, List.drop_left]
  | c :: p, rest, h => by
    have hc : c ≠ s0 := h c (List.mem_cons_self _ _)
    have ih := splitSeq_append s0 sep p rest fun c' hc' => h c' (List.mem_cons_of_mem _ hc')
    have hshape : (c :: p) ++ (s0 :: sep) ++ rest = c :: (p ++ (s0 :: sep) ++ rest) := by simp
    rw [hshape]
    have hpre : ¬ ((s0 :: sep).isPrefixOf (c :: (p ++ (s0 :: sep) ++ rest)) = true) := by
      simp only [List.isPrefixOf, Bool.and_eq_true, beq_iff_eq]
      intro hand
      exact hc hand.1.symm
    simp only [splitSeq, if_neg hpre, ih]

lemma intercalate_cons_two {α : Type} (sep : List α) (a b : List α) (t : List (List α)) :
    List.intercalate sep (a :: b :: t) = a ++ sep ++ List.intercalate sep (b :: t) := by
  simp [List.intercalate, List.intersperse]

lemma splitSeq_intercalate (s0 : Char) (sep : List Char) :
    ∀ parts : List (List Char), parts ≠ [] → (∀ p ∈ parts, ∀ c ∈ p, c ≠ s0) →
      splitSeq s0 sep (List.intercalate (s0 :: sep) parts) = parts
  | [], h, _ => absurd rfl h
  | [p], _, h => by
    have : List.intercalate (s0 :: sep) [p] = p := by simp [List.intercalate]
    rw [this]
    exact splitSeq_no_sep s0 sep p (h p (List.mem_cons_self _ _))
  | p :: q :: t, _, h => by
    rw [intercalate_cons_two]
    rw [splitSeq_append s0 sep p _ (h p (List.mem_cons_self _ _))]
    rw [splitSeq_intercalate s0 sep (q :: t) (by simp)
      (fun p' hp' => h p' (List.mem_cons_of_mem _ hp'))]

lemma mem_intercalate {α : Type} (sep : List α) :
    ∀ (parts : List (List α)) (c : α), c ∈ List.intercalate sep parts →
      c ∈ sep ∨ ∃ p ∈ parts, c ∈ p
  | [], c => by simp [List.intercalate]
  | [p], c => fun hc => by
    have : List.intercalate sep [p] = p := by simp [List.intercalate]
    rw [this] at hc
    exact Or.inr ⟨p, List.mem_cons_self _ _, hc⟩
  | p :: q :: t, c => fun hc => by
    rw [intercalate_cons_two] at hc
    rcases List.mem_append.mp hc with hc1 | hc2
    · rcases List.mem_append.mp hc1 with hcp | hcs
      · exact Or.inr ⟨p, List.mem_cons_self _ _, hcp⟩
      · exact Or.inl hcs
    · rcases mem_intercalate sep (q :: t) c hc2 with hcs | ⟨p', hp', hcp'⟩
      · exact Or.inl hcs
      · exact Or.inr ⟨p', List.mem_cons_of_mem _ hp', hcp'⟩

lemma digit_ne_comma (c : Char) (h : c.isDigit = true) : c ≠ ',' := by
  intro he
  subst he
  exact absurd h (by decide)

lemma isDigits_of (p : List Char) (hne : p ≠ []) (hd : ∀ c ∈ p, c.isDigit = true) :
    isDigits p = true := by
  unfold isDigits
  rw [Bool.and_eq_true, List.all_eq_true]
  exact ⟨by simp [List.isEmpty_eq_false, hne], hd⟩

lemma wirePartOk_of_tupleBody (t : List Char) (h : TupleBody t) : wirePartOk t = true := by
  obtain ⟨parts, hlen, hdig, rfl⟩ := h
  have hne : parts ≠ [] := by
    intro hnil
    subst hnil
    rcases hlen with h2 | h3
    · simp at h2
    · simp at h3
  have hsplit := splitSeq_intercalate ',' [] parts hne
    (fun p hp c hc => digit_ne_comma c ((hdig p hp).2 c hc))
  have hps : pySplit [','] (List.intercalate [','] parts) =
      splitSeq ',' [] (List.intercalate [','] parts) := rfl
  unfold wirePartOk
  rw [hps, hsplit]
  rcases hlen with h2 | h3
  · obtain ⟨a, b, rfl⟩ := List.length_eq_two.mp h2
    have ha := hdig a (by simp)
    have hb := hdig b (by simp)
    simp only []
    rw [Bool.and_eq_true]
    exact ⟨isDigits_of a ha.1 ha.2, isDigits_of b hb.1 hb.2⟩
  · obtain ⟨a, b, c, rfl⟩ := List.length_eq_three.mp h3
    have ha := hdig a (by simp)
    have hb := hdig b (by simp)
    have hc := hdig c (by simp)
    simp only []
    rw [Bool.and_eq_true, Bool.and_eq_true]
    exact ⟨⟨isDigits_of a ha.1 ha.2, isDigits_of b hb.1 hb.2⟩, isDigits_of c hc.1 hc.2⟩

lemma tupleBody_char (t : List Char) (h : TupleBody t) (c : Char) (hc : c ∈ t) :
    c.isDigit = true ∨ c = ',' := by
  obtain ⟨parts, _, hdig, rfl⟩ := h
  rcases mem_intercalate _ parts c hc with hsep | ⟨p, hp, hcp⟩
  · right
    simpa using hsep
  · left
    exact (hdig p hp).2 c hcp

lemma specWiresField_eq :
    ∀ bodies : List (List Char), bodies ≠ [] →
      specWiresField bodies = '(' :: (List.intercalate [')', ',', '('] bodies ++ [')'])
  | [], h => absurd rfl h
  | [t], _ => by simp [specWiresField, List.intercalate]
  | t :: u :: rest, _ => by
    have ih := specWiresField_eq (u :: rest) (by simp)
    unfold specWiresField at ih ⊢
    simp only [List.map_cons] at ih ⊢
    rw [intercalate_cons_two, ih, intercalate_cons_two]
    simp

lemma strip2_bracketed (bodies : List (List Char)) (h : bodies ≠ []) :
    strip2 (bracketedWiresField bodies) = List.intercalate [')', ',', '('] bodies := by
  unfold bracketedWiresField
  rw [specWiresField_eq bodies h]
  have hshape : ('[' :: (('(' :: (List.intercalate [')', ',', '('] bodies ++ [')'])) ++ [']'])) =
      ['[', '('] ++ (List.intercalate [')', ',', '('] bodies ++ [')', ']']) := by simp
  rw [hshape]
  unfold strip2
  have hdrop : (['[', '('] ++ (List.intercalate [')', ',', '('] bodies ++ [')', ']'])).drop 2 =
      List.intercalate [')', ',', '('] bodies ++ [')', ']'] :=
    List.drop_left ['[', '('] _
  rw [hdrop]
  have hlen : (['[', '('] ++ (List.intercalate [')', ',', '('] bodies ++ [')', ']'])).length - 4 =
      (List.intercalate [')', ',', '('] bodies).length := by
    simp only [List.length_append, List.length_cons, List.length_nil]
    omega
  rw [hlen]
  exact List.take_left _ _

/-- C3 (amended): every wires field written as the bracketed tuple sequence
`[(<x>,<y>[,<z>]),...]` — one wrapping character on each side of the
comma-joined tuples, matching the slice `x[2:-2]` — passes the wires check
of `check_file`. -/
theorem check_file_accepts_bracketed_wires (bodies : List (List Char))
    (hne : bodies ≠ []) (hb : ∀ t ∈ bodies, TupleBody t) :
    wiresFieldOk (bracketedWiresField bodies) = true := by
  have hps : pySplit [')', ',', '('] (strip2 (bracketedWiresField bodies)) =
      splitSeq ')' [',', '('] (strip2 (bracketedWiresField bodies)) := rfl
  unfold wiresFieldOk
  rw [hps, strip2_bracketed bodies hne]
  rw [splitSeq_intercalate ')' [',', '('] bodies hne
    (fun p hp c hc => by
      rcases tupleBody_char p (hb p hp) c hc with hd | hcm
      · intro he
        subst he
        exact absurd hd (by decide)
      · intro he
        rw [he] at hcm
        exact absurd hcm (by decide))]
  rw [List.all_eq_true]
  intro t ht
  exact wirePartOk_of_tupleBody t (hb t ht)

/-- Witness for the amended C3, applied at the concrete field
`[(0,0),(0,1)]`. -/
theorem check_file_accepts_bracketed_wires_witness :
    wiresFieldOk (bracketedWiresField [['0', ',', '0'], ['0', ',', '1']]) = true :=
  check_file_accepts_bracketed_wires [['0', ',', '0'], ['0', ',', '1']] (by decide)
    (by
      intro t ht
      rcases List.mem_cons.mp ht with rfl | ht2
      · exact ⟨[['0'], ['0']], Or.inl rfl, by decide, by decide⟩
      rcases List.mem_cons.mp ht2 with rfl | ht3
      · exact ⟨[['0'], ['1']], Or.inl rfl, by decide, by decide⟩
      · simp at ht3)

/-- Counterexample to C3 as stated: the field `(0,0),(0,1)` — exactly the
spec's stated format of concatenated `(<x>,<y>[,<z>])` tuples — is rejected
by the wires check: `x[2:-2]` slices two characters off each end, turning
this field into `0,0),(0,` whose parts fail the coordinate regex.  (This
refutes only universal acceptance of the bare form: other bare fields, such
as `(10,2),(3,45)`, happen to slice into regex-valid parts and pass.) -/
theorem check_file_rejects_spec_format :
    specWiresField [['0', ',', '0'], ['0', ',', '1']] = "(0,0),(0,1)".toList ∧
    TupleBody ['0', ',', '0'] ∧ TupleBody ['0', ',', '1'] ∧
    wiresFieldOk (specWiresField [['0', ',', '0'], ['0', ',', '1']]) = false := by
  refine ⟨by decide, ⟨[['0'], ['0']], Or.inl rfl, by decide, by decide⟩,
    ⟨[['0'], ['1']], Or.inl rfl, by decide, by decide⟩, ?_⟩
  simp [wiresFieldOk, pySplit, strip2, splitSeq, wirePartOk, isDigits, specWiresField,
    List.intercalate]

end Chips

namespace Lessons

/-! ### Theorems: scheduling checks (C2, C4) -/

/-- C2 (code defect): with one course declaring one lecture, no tutorials
and one practical, a schedule containing only the lecture passes
`are_all_courses_scheduled`, even though the practical instance `(A, p1)`
required by the spec is never scheduled — the source builds the `h` codes
twice and never builds `p` codes. -/
theorem are_all_courses_scheduled_ignores_practica :
    are_all_courses_scheduled courseRowsW scheduleW = true ∧
    ("A", "p1") ∈ requiredPairs courseRowsW ∧
    ("A", "p1") ∉ scheduledPairs scheduleW := by
  decide

/-- C4 (code defect): a schedule whose first evening record uses the
largest room `C0.110` but whose second evening record uses a different room
passes `only_biggest_in_evening`, because the source only inspects
`.iloc[0]` of the evening group. -/
theorem only_biggest_in_evening_checks_first_only :
    only_biggest_in_evening eveningScheduleW = true ∧
    (∃ r ∈ eveningScheduleW, r.time = 17 ∧ r.room ≠ "C0.110") := by
  decide

end Lessons

namespace Rush

/-! ### Theorems: `Board.place` bounds and collision behaviour (C8) -/

lemma locations_nodup (v : Vehicle) (col row : Int) : (v.locations col row).Nodup := by
  unfold Vehicle.locations
  split
  · refine List.Nodup.map ?_ (List.nodup_range _)
    intro i j hij
    have h2 := congrArg Prod.snd hij
    simp only at h2
    omega
  · refine List.Nodup.map ?_ (List.nodup_range _)
    intro i j hij
    have h1 := congrArg Prod.fst hij
    simp only at h1
    omega

lemma writeCells_ok (size : Nat) (v : Vehicle) :
    ∀ (cs : List (Int × Int)) (g : Int → Int → Option Vehicle), cs.Nodup →
      (∀ q ∈ cs, inRangeCell size q ∧ g q.1 q.2 = none) →
      ∃ g', writeCells size v cs g = .ok g' ∧
        ∀ c r, g' c r = if (c, r) ∈ cs then some v else g c r
  | [], g, _, _ => ⟨g, rfl, by simp⟩
  | q :: qs, g, hnd, hok => by
    have hq := hok q (List.mem_cons_self _ _)
    have hnd' := List.nodup_cons.mp hnd
    have hok' : ∀ q' ∈ qs, inRangeCell size q' ∧
        (fun c r => if c = q.1 ∧ r = q.2 then some v else g c r) q'.1 q'.2 = none := by
      intro q' hq'
      refine ⟨(hok q' (List.mem_cons_of_mem _ hq')).1, ?_⟩
      have hne : q' ≠ q := fun he => hnd'.1 (he ▸ hq')
      simp only
      rw [if_neg (fun hc => hne (Prod.ext hc.1 hc.2))]
      exact (hok q' (List.mem_cons_of_mem _ hq')).2
    obtain ⟨g', hw, hchar⟩ := writeCells_ok size v qs
      (fun c r => if c = q.1 ∧ r = q.2 then some v else g c r) hnd'.2 hok'
    refine ⟨g', ?_, ?_⟩
    · simp only [writeCells]
      rw [if_neg (not_not_intro hq.1), if_neg (by simp [hq.2])]
      exact hw
    · intro c r
      rw [hchar c r]
      by_cases hmem : (c, r) ∈ qs
      · rw [if_pos hmem, if_pos (List.mem_cons_of_mem _ hmem)]
      · rw [if_neg hmem]
        by_cases hcq : (c, r) = q
        · have hc : c = q.1 ∧ r = q.2 := ⟨congrArg Prod.fst hcq, congrArg Prod.snd hcq⟩
          rw [if_pos hc, if_pos (hcq ▸ List.mem_cons_self q qs)]
        · have hnotin : ¬ (c, r) ∈ q :: qs := by
            intro hmem2
            rcases List.mem_cons.mp hmem2 with h1 | h2
            · exact hcq h1
            · exact hmem h2
          rw [if_neg hnotin]
          rw [if_neg (fun hc => hcq (Prod.ext hc.1 hc.2))]

lemma writeCells_stops (size : Nat) (v : Vehicle) :
    ∀ (pre : List (Int × Int)) (q : Int × Int) (post : List (Int × Int))
      (g : Int → Int → Option Vehicle),
      pre.Nodup → q ∉ pre →
      (∀ q' ∈ pre, inRangeCell size q' ∧ g q'.1 q'.2 = none) →
      ¬ (inRangeCell size q ∧ g q.1 q.2 = none) →
      writeCells size v (pre ++ q :: post) g =
        .error (if inRangeCell size q then .collision else .wallHit)
  | [], q, post, g, _, _, _, hbad => by
    simp only [List.nil_append]
    by_cases hir : inRangeCell size q
    · have hocc : g q.1 q.2 ≠ none := fun he => hbad ⟨hir, he⟩
      rw [if_pos hir]
      simp only [writeCells]
      rw [if_neg (not_not_intro hir), if_pos (by simp [Option.isSome_iff_ne_none, hocc])]
    · rw [if_neg hir]
      simp only [writeCells]
      rw [if_pos hir]
  | p :: pre, q, post, g, hnd, hqp, hpre, hbad => by
    have hp := hpre p (List.mem_cons_self _ _)
    have hnd' := List.nodup_cons.mp hnd
    have hqp' : q ∉ pre := fun hmem => hqp (List.mem_cons_of_mem _ hmem)
    have hqnep : q ≠ p := fun he => hqp (he ▸ List.mem_cons_self _ _)
    have hpre' : ∀ q' ∈ pre, inRangeCell size q' ∧
        (fun c r => if c = p.1 ∧ r = p.2 then some v else g c r) q'.1 q'.2 = none := by
      intro q' hq'
      refine ⟨(hpre q' (List.mem_cons_of_mem _ hq')).1, ?_⟩
      have hne : q' ≠ p := fun he => hnd'.1 (he ▸ hq')
      simp only
      rw [if_neg (fun hc => hne (Prod.ext hc.1 hc.2))]
      exact (hpre q' (List.mem_cons_of_mem _ hq')).2
    have hbad' : ¬ (inRangeCell size q ∧
        (fun c r => if c = p.1 ∧ r = p.2 then some v else g c r) q.1 q.2 = none) := by
      simp only
      rw [if_neg (fun hc => hqnep (Prod.ext hc.1 hc.2))]
      exact hbad
    have ih := writeCells_stops size v pre q post
      (fun c r => if c = p.1 ∧ r = p.2 then some v else g c r) hnd'.2 hqp' hpre' hbad'
    simp only [List.cons_append, writeCells]
    rw [if_neg (not_not_intro hp.1), if_neg (by simp [hp.2])]
    exact ih

lemma all_or_first_not {α : Type} (P : α → Prop) [DecidablePred P] :
    ∀ l : List α, (∀ a ∈ l, P a) ∨
      ∃ pre a post, l = pre ++ a :: post ∧ (∀ b ∈ pre, P b) ∧ ¬ P a
  | [] => Or.inl (by simp)
  | c :: l => by
    by_cases hc : P c
    · rcases all_or_first_not P l with hall | ⟨pre, a, post, heq, hpre, hna⟩
      · left
        intro a ha
        rcases List.mem_cons.mp ha with rfl | hmem
        · exact hc
        · exact hall a hmem
      · right
        refine ⟨c :: pre, a, post, by rw [heq, List.cons_append], ?_, hna⟩
        intro b hb
        rcases List.mem_cons.mp hb with rfl | hmem
        · exact hc
        · exact hpre b hmem
    · exact Or.inr ⟨[], c, l, rfl, by simp, hc⟩

lemma place_of_writeCells_ok (b : Board) (v : Vehicle) (col row : Int)
    (g' : Int → Int → Option Vehicle)
    (h : writeCells b.size v (v.locations col row) b.grid = .ok g') :
    b.place v col row = .ok { b with grid := g', vehicles := b.vehicles ++ [v] } := by
  unfold Board.place
  rw [h]
  rfl

lemma place_of_writeCells_error (b : Board) (v : Vehicle) (col row : Int) (e : BoardError)
    (h : writeCells b.size v (v.locations col row) b.grid = .error e) :
    b.place v col row = .error e := by
  unfold Board.place
  rw [h]
  rfl

lemma nodup_middle_facts {α : Type} (pre : List α) (a : α) (post : List α)
    (h : (pre ++ a :: post).Nodup) : pre.Nodup ∧ a ∉ pre := by
  rw [List.nodup_append] at h
  exact ⟨h.1, fun hmem => h.2.2 hmem (List.mem_cons_self _ _)⟩

lemma place_stops (b : Board) (v : Vehicle) (col row : Int)
    (pre : List (Int × Int)) (q : Int × Int) (post : List (Int × Int))
    (hsplit : v.locations col row = pre ++ q :: post)
    (hpre : ∀ q' ∈ pre, inRangeCell b.size q' ∧ b.grid q'.1 q'.2 = none)
    (hbad : ¬ (inRangeCell b.size q ∧ b.grid q.1 q.2 = none)) :
    b.place v col row = .error (if inRangeCell b.size q then .collision else .wallHit) := by
  have hnd := locations_nodup v col row
  rw [hsplit] at hnd
  obtain ⟨hnd1, hnd2⟩ := nodup_middle_facts pre q post hnd
  apply place_of_writeCells_error
  rw [hsplit]
  exact writeCells_stops b.size v pre q post b.grid hnd1 hnd2 hpre hbad

/-- C8 (amended): placement succeeds exactly when every footprint cell is
inside `[0, size)` in both coordinates and empty; on failure the raised
error is decided by the *first* offending cell in anchor-to-end footprint
order — `WallHit` when that cell is out of bounds, `Collision` when it is
in bounds but already occupied. -/
theorem place_error_classification (b : Board) (v : Vehicle) (col row : Int) :
    ((∃ b', b.place v col row = .ok b') ↔
       ∀ q ∈ v.locations col row, inRangeCell b.size q ∧ b.grid q.1 q.2 = none) ∧
    (b.place v col row = .error .wallHit ↔
       ∃ pre q post, v.locations col row = pre ++ q :: post ∧
         (∀ q' ∈ pre, inRangeCell b.size q' ∧ b.grid q'.1 q'.2 = none) ∧
         ¬ inRangeCell b.size q) ∧
    (b.place v col row = .error .collision ↔
       ∃ pre q post, v.locations col row = pre ++ q :: post ∧
         (∀ q' ∈ pre, inRangeCell b.size q' ∧ b.grid q'.1 q'.2 = none) ∧
         inRangeCell b.size q ∧ b.grid q.1 q.2 ≠ none) := by
  have hok : (∀ q ∈ v.locations col row, inRangeCell b.size q ∧ b.grid q.1 q.2 = none) →
      ∃ b', b.place v col row = .ok b' := by
    intro hall
    obtain ⟨g', hw, _⟩ := writeCells_ok b.size v (v.locations col row) b.grid
      (locations_nodup v col row) hall
    exact ⟨_, place_of_writeCells_ok b v col row g' hw⟩
  have htrich := all_or_first_not
    (fun q => inRangeCell b.size q ∧ b.grid q.1 q.2 = none) (v.locations col row)
  refine ⟨⟨?_, hok⟩, ⟨?_, ?_⟩, ⟨?_, ?_⟩⟩
  · rintro ⟨b', hb'⟩ q hq
    by_contra hbad
    rcases htrich with hall | ⟨pre, a, post, heq, hpre, hna⟩
    · exact hbad (hall q hq)
    · have := place_stops b v col row pre a post heq hpre hna
      rw [this] at hb'
      cases hb'
  · intro hwall
    rcases htrich with hall | ⟨pre, a, post, heq, hpre, hna⟩
    · obtain ⟨b', hb'⟩ := hok hall
      rw [hb'] at hwall
      cases hwall
    · refine ⟨pre, a, post, heq, hpre, ?_⟩
      intro hir
      have := place_stops b v col row pre a post heq hpre hna
      rw [if_pos hir] at this
      rw [this] at hwall
      cases hwall
  · rintro ⟨pre, q, post, heq, hpre, hir⟩
    have := place_stops b v col row pre q post heq hpre (fun hc => hir hc.1)
    rw [if_neg hir] at this
    exact this
  · intro hcol
    rcases htrich with hall | ⟨pre, a, post, heq, hpre, hna⟩
    · obtain ⟨b', hb'⟩ := hok hall
      rw [hb'] at hcol
      cases hcol
    · by_cases hir : inRangeCell b.size a
      · refine ⟨pre, a, post, heq, hpre, hir, ?_⟩
        intro hnone
        exact hna ⟨hir, hnone⟩
      · have := place_stops b v col row pre a post heq hpre hna
        rw [if_neg hir] at this
        rw [this] at hcol
        cases hcol
  · rintro ⟨pre, q, post, heq, hpre, hir, hocc⟩
    have := place_stops b v col row pre q post heq hpre (fun hc => hocc hc.2)
    rw [if_pos hir] at this
    exact this

/-- Counterexample to C8 as stated: on a 1×1 board already holding vehicle
`A` at (0,0), placing the length-2 horizontal vehicle `B` at (0,0) has a
footprint cell (1,0) outside the board, yet the raised error is `Collision`
(from the in-bounds occupied cell checked first), not `WallHit` as the
claim's unconditional WallHit clause demands. -/
theorem place_wallhit_clause_false :
    boardC8.place vehB 0 0 = .error .collision ∧
    ((1 : Int), (0 : Int)) ∈ vehB.locations 0 0 ∧
    ¬ inRangeCell boardC8.size ((1 : Int), (0 : Int)) := by
  refine ⟨rfl, by decide, ?_⟩
  intro h
  have hs : boardC8.size = 1 := rfl
  rw [hs] at h
  have h1 := h.2.1
  norm_num at h1

/-! ### Theorems: board representation by placements (towards C7) -/

lemma occOf_cons (p : Placement) (ps : List Placement) (c r : Int) :
    occOf (p :: ps) c r =
      if p.cells.contains (c, r) then some p.vehicle else occOf ps c r := by
  unfold occOf
  by_cases h : p.cells.contains (c, r)
  · rw [@List.find?_cons_of_pos _ (fun p' => p'.cells.contains (c, r)) p ps h, if_pos h]
    rfl
  · rw [@List.find?_cons_of_neg _ (fun p' => p'.cells.contains (c, r)) p ps h, if_neg h]

lemma occOf_eq_some :
    ∀ (ps : List Placement),
      (ps.Pairwise fun p1 p2 => ∀ q ∈ p1.cells, q ∉ p2.cells) →
      ∀ (p : Placement), p ∈ ps → ∀ (c r : Int), (c, r) ∈ p.cells →
      occOf ps c r = some p.vehicle
  | [], _, p, hp => by simp at hp
  | p0 :: ps, hdisj, p, hp => fun c r hc => by
    rw [occOf_cons]
    rcases List.mem_cons.mp hp with rfl | hmem
    · rw [if_pos (List.elem_iff.mpr hc)]
    · have hR := (List.pairwise_cons.mp hdisj).1 p hmem
      have hnot : ¬ ((c, r) ∈ p0.cells) := fun hin => hR (c, r) hin hc
      rw [if_neg (fun hcont => hnot (List.elem_iff.mp hcont))]
      exact occOf_eq_some ps (List.pairwise_cons.mp hdisj).2 p hmem c r hc

lemma occOf_eq_none (ps : List Placement) (c r : Int)
    (h : ∀ p ∈ ps, (c, r) ∉ p.cells) : occOf ps c r = none := by
  unfold occOf
  rw [List.find?_eq_none.mpr fun p hp hcont => h p hp (List.elem_iff.mp hcont)]
  rfl

lemma occOf_some_inv (ps : List Placement) (c r : Int) (w : Vehicle)
    (h : occOf ps c r = some w) :
    ∃ p ∈ ps, p.vehicle = w ∧ (c, r) ∈ p.cells := by
  unfold occOf at h
  cases hf : ps.find? fun p => p.cells.contains (c, r) with
  | none => rw [hf] at h; cases h
  | some p =>
    rw [hf] at h
    have h2 : p.vehicle = w := by
      have h' : some p.vehicle = some w := h
      injection h'
    have hcont : p.cells.contains (c, r) = true :=
      @List.find?_some _ (fun p' => p'.cells.contains (c, r)) p ps hf
    exact ⟨p, List.mem_of_find?_eq_some hf, h2, List.elem_iff.mp hcont⟩

lemma occOf_append (ps qs : List Placement) (c r : Int) :
    occOf (ps ++ qs) c r = (occOf ps c r).or (occOf qs c r) := by
  unfold occOf
  rw [List.find?_append]
  cases ps.find? fun p => p.cells.contains (c, r) with
  | none => rfl
  | some p => rfl

lemma place_ok_inv (b : Board) (v : Vehicle) (col row : Int) (b' : Board)
    (hok : b.place v col row = .ok b') :
    (∀ q ∈ v.locations col row, inRangeCell b.size q ∧ b.grid q.1 q.2 = none) ∧
    b'.size = b.size ∧ b'.vehicles = b.vehicles ++ [v] ∧
    ∀ c r, b'.grid c r =
      if (c, r) ∈ v.locations col row then some v else b.grid c r := by
  have hall : ∀ q ∈ v.locations col row, inRangeCell b.size q ∧ b.grid q.1 q.2 = none := by
    rcases all_or_first_not
        (fun q => inRangeCell b.size q ∧ b.grid q.1 q.2 = none) (v.locations col row) with
      hall | ⟨pre, a, post, heq, hpre, hna⟩
    · exact hall
    · have := place_stops b v col row pre a post heq hpre hna
      rw [this] at hok
      cases hok
  obtain ⟨g', hw, hchar⟩ :=
    writeCells_ok b.size v (v.locations col row) b.grid (locations_nodup v col row) hall
  have hplace := place_of_writeCells_ok b v col row g' hw
  rw [hplace] at hok
  injection hok with hok
  subst hok
  exact ⟨hall, rfl, rfl, hchar⟩

lemma Represents.place_ok {b : Board} {size : Nat} {ps : List Placement}
    (hrep : Represents b size ps) {p : Placement} {b' : Board}
    (hok : b.place p.vehicle p.col p.row = .ok b') :
    Represents b' size (ps ++ [p]) := by
  obtain ⟨hall, hsz, hveh, hgrid⟩ := place_ok_inv b p.vehicle p.col p.row b' hok
  have hallc : ∀ q ∈ p.cells, inRangeCell b.size q ∧ b.grid q.1 q.2 = none := hall
  have hcross : ∀ p1 ∈ ps, ∀ q ∈ p1.cells, q ∉ p.cells := by
    intro p1 hp1 q hq1 hqp
    have hnone := (hallc q hqp).2
    have := hrep.grid_eq q.1 q.2
    rw [occOf_eq_some ps hrep.disjoint p1 hp1 q.1 q.2 hq1] at this
    rw [this] at hnone
    cases hnone
  refine ⟨?_, ?_, ?_, ?_, ?_⟩
  · rw [hsz, hrep.size_eq]
  · rw [hveh, hrep.vehicles_eq, List.map_append, List.map_singleton]
  · intro p1 hp1 q hq
    rcases List.mem_append.mp hp1 with hmem | hmem
    · exact hrep.cells_inRange p1 hmem q hq
    · rw [List.mem_singleton.mp hmem] at hq
      exact hrep.size_eq ▸ (hallc q hq).1
  · rw [List.pairwise_append]
    refine ⟨hrep.disjoint, List.pairwise_singleton _ _, ?_⟩
    intro p1 hp1 p2 hp2
    rw [List.mem_singleton.mp hp2]
    exact hcross p1 hp1
  · intro c r
    rw [hgrid c r, occOf_append]
    by_cases hmem : (c, r) ∈ p.vehicle.locations p.col p.row
    · rw [if_pos hmem]
      have hnone : occOf ps c r = none := by
        rw [← hrep.grid_eq]
        exact (hallc _ hmem).2
      rw [hnone, Option.none_or, occOf_cons,
        if_pos (show p.cells.contains (c, r) = true from List.elem_iff.mpr hmem)]
    · rw [if_neg hmem]
      have hnone1 : occOf [p] c r = none :=
        occOf_eq_none [p] c r fun p2 hp2 =>
          (List.mem_singleton.mp hp2) ▸ hmem
      rw [hnone1, Option.or_none, hrep.grid_eq]

lemma find?_append_none {α : Type} (P : α → Bool) (l1 l2 : List α)
    (h : ∀ a ∈ l1, P a = false) : List.find? P (l1 ++ l2) = List.find? P l2 := by
  rw [List.find?_append, List.find?_eq_none.mpr fun x hx => by simp [h x hx], Option.none_or]

lemma find?_row_cols (P : Int × Int → Bool) (ar ac : Nat)
    (hP : P ((ac : Int), (ar : Int)) = true)
    (hbefore : ∀ c : Nat, c < ac → P ((c : Int), (ar : Int)) = false) :
    ∀ (s n : Nat), s ≤ ac → ac < s + n →
      (((List.range' s n).map fun (col : Nat) => ((col : Int), (ar : Int))).find? P) =
        some ((ac : Int), (ar : Int))
  | s, 0, hs, hlt => absurd hlt (by omega)
  | s, n + 1, hs, hlt => by
    rw [List.range'_succ, List.map_cons]
    by_cases he : s = ac
    · subst he
      exact List.find?_cons_of_pos _ hP
    · have hslt : s < ac := by omega
      rw [List.find?_cons_of_neg _ (by simp [hbefore s hslt])]
      exact find?_row_cols P ar ac hP hbefore (s + 1) n (by omega) (by omega)

lemma find?_rows (size : Nat) (P : Int × Int → Bool) (ar ac : Nat)
    (hrow : ((List.range size).map fun (col : Nat) => ((col : Int), (ar : Int))).find? P =
      some ((ac : Int), (ar : Int)))
    (hbefore : ∀ (c r : Nat), c < size → r < ar → P ((c : Int), (r : Int)) = false) :
    ∀ (s n : Nat), s ≤ ar → ar < s + n →
      (((List.range' s n).flatMap fun (row : Nat) =>
        (List.range size).map fun (col : Nat) => ((col : Int), (row : Int))).find? P) =
        some ((ac : Int), (ar : Int))
  | s, 0, hs, hlt => absurd hlt (by omega)
  | s, n + 1, hs, hlt => by
    rw [List.range'_succ, List.flatMap_cons]
    by_cases he : s = ar
    · subst he
      rw [List.find?_append, hrow]
      rfl
    · have hnone : ∀ y ∈ (List.range size).map fun (col : Nat) => ((col : Int), (s : Int)),
          P y = false := by
        intro y hy
        obtain ⟨col, hcol, rfl⟩ := List.mem_map.mp hy
        exact hbefore col s (List.mem_range.mp hcol) (by omega)
      rw [find?_append_none _ _ _ hnone]
      exact find?_rows size P ar ac hrow hbefore (s + 1) n (by omega) (by omega)

lemma find?_scanCells (size : Nat) (P : Int × Int → Bool) (a : Int × Int)
    (ha : inRangeCell size a) (hP : P a = true)
    (hmin : ∀ q, inRangeCell size q → P q = true →
      a.2 < q.2 ∨ (a.2 = q.2 ∧ a.1 ≤ q.1)) :
    (scanCells size).find? P = some a := by
  obtain ⟨h1, h2, h3, h4⟩ := ha
  have hca : ((a.1.toNat : Nat) : Int) = a.1 := Int.toNat_of_nonneg h1
  have hra : ((a.2.toNat : Nat) : Int) = a.2 := Int.toNat_of_nonneg h3
  have haa : (((a.1.toNat : Nat) : Int), ((a.2.toNat : Nat) : Int)) = a := by
    rw [hca, hra]
  have hbefore_row : ∀ c : Nat, c < a.1.toNat →
      P ((c : Int), ((a.2.toNat : Nat) : Int)) = false := by
    intro c hc
    cases hPc : P ((c : Int), ((a.2.toNat : Nat) : Int))
    · rfl
    · have hinr : inRangeCell size ((c : Int), ((a.2.toNat : Nat) : Int)) := by
        refine ⟨by omega, by omega, by omega, by omega⟩
      have := hmin _ hinr hPc
      simp only at this
      omega
  have hrow : ((List.range size).map fun (col : Nat) => ((col : Int), ((a.2.toNat : Nat) : Int))).find? P =
      some (((a.1.toNat : Nat) : Int), ((a.2.toNat : Nat) : Int)) := by
    rw [List.range_eq_range']
    apply find?_row_cols P a.2.toNat a.1.toNat (by rw [haa]; exact hP) hbefore_row 0 size
      (by omega) (by omega)
  have hbefore_rows : ∀ (c r : Nat), c < size → r < a.2.toNat →
      P ((c : Int), (r : Int)) = false := by
    intro c r hc hr
    cases hPc : P ((c : Int), (r : Int))
    · rfl
    · have hinr : inRangeCell size ((c : Int), (r : Int)) := by
        refine ⟨by omega, by omega, by omega, by omega⟩
      have := hmin _ hinr hPc
      simp only at this
      omega
  unfold scanCells
  nth_rewrite 1 [List.range_eq_range']
  rw [find?_rows size P a.2.toNat a.1.toNat hrow hbefore_rows 0 size (by omega) (by omega)]
  rw [haa]

lemma anchor_mem (p : Placement) (hlen : 1 ≤ p.vehicle.length) :
    (p.col, p.row) ∈ p.cells := by
  unfold Placement.cells Vehicle.locations
  split
  · refine List.mem_map.mpr ⟨0, List.mem_range.mpr (by omega), ?_⟩
    simp
  · refine List.mem_map.mpr ⟨0, List.mem_range.mpr (by omega), ?_⟩
    simp

lemma cells_scan_order (p : Placement) (q : Int × Int) (hq : q ∈ p.cells) :
    p.row < q.2 ∨ (p.row = q.2 ∧ p.col ≤ q.1) := by
  unfold Placement.cells Vehicle.locations at hq
  split at hq
  · obtain ⟨i, _, rfl⟩ := List.mem_map.mp hq
    rcases Nat.eq_zero_or_pos i with rfl | hi
    · right
      constructor
      · simp
      · simp
    · left
      simp only
      omega
  · obtain ⟨i, _, rfl⟩ := List.mem_map.mp hq
    right
    constructor
    · rfl
    · simp only
      omega

lemma mem_eq_of_nodup_map {α β : Type} (f : α → β) :
    ∀ (l : List α), (l.map f).Nodup → ∀ a b, a ∈ l → b ∈ l → f a = f b → a = b
  | [], _, a, b, ha, _, _ => by simp at ha
  | x :: l, hnd, a, b, ha, hb, hf => by
    rw [List.map_cons, List.nodup_cons] at hnd
    rcases List.mem_cons.mp ha with rfl | ha' <;> rcases List.mem_cons.mp hb with rfl | hb'
    · rfl
    · have hmem : f b ∈ l.map f := List.mem_map_of_mem f hb'
      rw [← hf] at hmem
      exact absurd hmem hnd.1
    · have hmem : f a ∈ l.map f := List.mem_map_of_mem f ha'
      rw [hf] at hmem
      exact absurd hmem hnd.1
    · exact mem_eq_of_nodup_map f l hnd.2 a b ha' hb' hf

lemma location_of_represents (b : Board) (size : Nat) (ps : List Placement)
    (hrep : Represents b size ps)
    (hnames : (ps.map fun p => p.vehicle.name).Nodup)
    (p : Placement) (hp : p ∈ ps) (hlen : 1 ≤ p.vehicle.length)
    (v : Vehicle) (hv : v.name = p.vehicle.name) :
    b.location_of v = some (p.col, p.row) := by
  unfold Board.location_of
  rw [hrep.size_eq]
  apply find?_scanCells
  · exact hrep.cells_inRange p hp _ (anchor_mem p hlen)
  · have hg := hrep.grid_eq p.col p.row
    rw [occOf_eq_some ps hrep.disjoint p hp p.col p.row (anchor_mem p hlen)] at hg
    simp only [hg]
    simp [Vehicle.eqPy, hv]
  · intro q hq hPq
    cases hocc : b.grid q.1 q.2 with
    | none => rw [hocc] at hPq; simp at hPq
    | some w =>
      rw [hocc] at hPq
      simp only at hPq
      have hocc2 := hocc
      rw [hrep.grid_eq] at hocc2
      obtain ⟨p', hp', hpw, hcell⟩ := occOf_some_inv ps q.1 q.2 w hocc2
      have hname : w.name = v.name := by
        simpa [Vehicle.eqPy] using hPq
      have hpp : p' = p := by
        apply mem_eq_of_nodup_map _ ps hnames p' p hp' hp
        rw [hpw, hname, hv]
      subst hpp
      have := cells_scan_order p' q hcell
      simpa using this

lemma foldlM_place_ok (size : Nat) :
    ∀ (ps : List Placement) (b0 : Board) (ps0 : List Placement),
      Represents b0 size ps0 →
      (∀ p ∈ ps, ∀ q ∈ p.cells, inRangeCell size q) →
      ((ps0 ++ ps).Pairwise fun p1 p2 => ∀ q ∈ p1.cells, q ∉ p2.cells) →
      ∃ b, ps.foldlM (fun b p => b.place p.vehicle p.col p.row) b0 = .ok b ∧
        Represents b size (ps0 ++ ps)
  | [], b0, ps0, hrep, _, _ => ⟨b0, rfl, by simpa using hrep⟩
  | p :: ps, b0, ps0, hrep, hin, hdisj => by
    have hcells : ∀ q ∈ p.cells, inRangeCell b0.size q ∧ b0.grid q.1 q.2 = none := by
      intro q hq
      refine ⟨hrep.size_eq ▸ hin p (List.mem_cons_self _ _) q hq, ?_⟩
      rw [hrep.grid_eq]
      apply occOf_eq_none
      intro p0 hp0 hqp0
      exact (List.pairwise_append.mp hdisj).2.2 p0 hp0 p (List.mem_cons_self _ _) q hqp0 hq
    obtain ⟨g', hw, _⟩ :=
      writeCells_ok b0.size p.vehicle (p.vehicle.locations p.col p.row) b0.grid
        (locations_nodup _ _ _) hcells
    have hplace := place_of_writeCells_ok b0 p.vehicle p.col p.row g' hw
    have hrep1 : Represents _ size (ps0 ++ [p]) := Represents.place_ok hrep hplace
    have hdisj' : ((ps0 ++ [p]) ++ ps).Pairwise fun p1 p2 => ∀ q ∈ p1.cells, q ∉ p2.cells := by
      rw [List.append_assoc, List.singleton_append]
      exact hdisj
    obtain ⟨b, hfold, hrepb⟩ := foldlM_place_ok size ps _ (ps0 ++ [p]) hrep1
      (fun p' hp' => hin p' (List.mem_cons_of_mem _ hp')) hdisj'
    refine ⟨b, ?_, ?_⟩
    · rw [List.foldlM_cons, hplace]
      exact hfold
    · rw [List.append_assoc, List.singleton_append] at hrepb
      exact hrepb

lemma Represents.emptyBoard (size : Nat) : Represents (emptyBoard size) size [] :=
  ⟨rfl, rfl, by simp, List.Pairwise.nil, fun _ _ => rfl⟩

lemma foldlM_place_represents (size : Nat) :
    ∀ (ps : List Placement) (b0 : Board) (ps0 : List Placement) (b : Board),
      Represents b0 size ps0 →
      ps.foldlM (fun b p => b.place p.vehicle p.col p.row) b0 = .ok b →
      Represents b size (ps0 ++ ps)
  | [], b0, ps0, b, hrep, hfold => by
    have heq : Except.ok b0 = Except.ok b := hfold
    injection heq with heq
    subst heq
    simpa using hrep
  | p :: ps, b0, ps0, b, hrep, hfold => by
    rw [List.foldlM_cons] at hfold
    cases hpl : b0.place p.vehicle p.col p.row with
    | error e =>
      rw [hpl] at hfold
      have heq : (Except.error e : Except BoardError Board) = Except.ok b := hfold
      cases heq
    | ok b1 =>
      rw [hpl] at hfold
      have hfold2 : ps.foldlM (fun b p => b.place p.vehicle p.col p.row) b1 = .ok b := hfold
      have hrep1 : Represents b1 size (ps0 ++ [p]) := Represents.place_ok hrep hpl
      have := foldlM_place_represents size ps b1 (ps0 ++ [p]) b hrep1 hfold2
      rwa [List.append_assoc, List.singleton_append] at this

lemma placeAll_represents (size : Nat) (ps : List Placement) (b : Board)
    (h : placeAll size ps = .ok b) : Represents b size ps := by
  unfold placeAll at h
  simpa using foldlM_place_represents size ps (emptyBoard size) [] b
    (Represents.emptyBoard size) h

lemma foldlM_congr_mem {m : Type → Type} [Monad m] {α β : Type} (f g : β → α → m β) :
    ∀ (l : List α) (b : β), (∀ a ∈ l, ∀ b', f b' a = g b' a) →
      l.foldlM f b = l.foldlM g b
  | [], _, _ => rfl
  | a :: l, b, h => by
    rw [List.foldlM_cons, List.foldlM_cons, h a (List.mem_cons_self _ _) b]
    congr 1
    funext b'
    exact foldlM_congr_mem f g l b' fun a' ha' b'' => h a' (List.mem_cons_of_mem _ ha') b''

/-! ### Theorems: one unit move rebuilds the board with a shifted anchor -/

lemma moveUnit_step (size : Nat) (orig cursor : Board) (v : Vehicle) (δ : Int)
    (O psc : List Placement) (pos : Int × Int) (next : Board)
    (horig : orig.vehicles.filter (fun w => !w.eqPy v) = O.map fun p => p.vehicle)
    (hrep : Represents cursor size psc)
    (hO : psc.filter (fun q => !q.vehicle.eqPy v) = O)
    (hpc : psc.filter (fun q => q.vehicle.eqPy v) = [⟨v, pos.1, pos.2⟩])
    (hnames : (psc.map fun p => p.vehicle.name).Nodup)
    (hlens : ∀ p ∈ psc, 1 ≤ p.vehicle.length)
    (hok : Board.moveUnit orig cursor v δ = .ok next) :
    Represents next size
      (O ++ [⟨v, (shiftAnchor v pos δ).1, (shiftAnchor v pos δ).2⟩]) := by
  have hOsub : ∀ p ∈ O, p ∈ psc := fun p hp => (List.mem_filter.mp (hO ▸ hp)).1
  have hpcmem : (⟨v, pos.1, pos.2⟩ : Placement) ∈ psc := by
    have hmem : (⟨v, pos.1, pos.2⟩ : Placement) ∈ psc.filter fun q => q.vehicle.eqPy v := by
      rw [hpc]
      exact List.mem_cons_self _ _
    exact (List.mem_filter.mp hmem).1
  have hlocs : ∀ p ∈ O, cursor.location_of p.vehicle = some (p.col, p.row) := fun p hp =>
    location_of_represents cursor size psc hrep hnames p (hOsub p hp)
      (hlens p (hOsub p hp)) p.vehicle rfl
  have hlocv : cursor.location_of v = some (pos.1, pos.2) :=
    location_of_represents cursor size psc hrep hnames ⟨v, pos.1, pos.2⟩ hpcmem
      (hlens _ hpcmem) v rfl
  have hfold_eq := foldlM_congr_mem
    (fun nb p => match cursor.location_of (Placement.vehicle p) with
      | none => Except.error BoardError.vehicleMissing
      | some q => nb.place (Placement.vehicle p) q.1 q.2)
    (fun nb p => nb.place p.vehicle p.col p.row) O (emptyBoard size)
    (by
      intro p hp nb
      show (match cursor.location_of p.vehicle with
        | none => Except.error BoardError.vehicleMissing
        | some q => nb.place p.vehicle q.1 q.2) = nb.place p.vehicle p.col p.row
      rw [hlocs p hp])
  obtain ⟨bO, hfoldO, hrepO⟩ := foldlM_place_ok size O (emptyBoard size) []
    (Represents.emptyBoard size)
    (fun p hp => hrep.cells_inRange p (hOsub p hp))
    (by
      rw [List.nil_append, ← hO]
      exact List.Pairwise.sublist (List.filter_sublist psc) hrep.disjoint)
  rw [List.nil_append] at hrepO
  have hmu : Board.moveUnit orig cursor v δ =
      if (v.orientation == "V") = true then bO.place v pos.1 (pos.2 + δ)
      else bO.place v (pos.1 + δ) pos.2 := by
    unfold Board.moveUnit
    rw [horig, hrep.size_eq]
    simp only [List.foldlM_map]
    rw [hfold_eq, hfoldO, hlocv]
    rfl
  rw [hmu] at hok
  unfold shiftAnchor
  by_cases hor : (v.orientation == "V") = true
  · rw [if_pos hor] at hok ⊢
    exact @Represents.place_ok bO size O hrepO ⟨v, pos.1, pos.2 + δ⟩ next hok
  · rw [if_neg hor] at hok ⊢
    exact @Represents.place_ok bO size O hrepO ⟨v, pos.1 + δ, pos.2⟩ next hok

lemma shiftAnchor_add (v : Vehicle) (pos : Int × Int) (d1 d2 : Int) :
    shiftAnchor v (shiftAnchor v pos d1) d2 = shiftAnchor v pos (d1 + d2) := by
  unfold shiftAnchor
  by_cases h : (v.orientation == "V") = true <;> simp [h, add_assoc]

lemma shiftAnchor_zero (v : Vehicle) (pos : Int × Int) : shiftAnchor v pos 0 = pos := by
  unfold shiftAnchor
  by_cases h : (v.orientation == "V") = true <;> simp [h]

lemma moveSteps_ok (size : Nat) (orig : Board) (v : Vehicle) (O : List Placement)
    (horig : orig.vehicles.filter (fun w => !w.eqPy v) = O.map fun p => p.vehicle) :
    ∀ (deltas : List Int) (cursor : Board) (psc : List Placement) (pos : Int × Int)
      (final : Board),
      Represents cursor size psc →
      psc.filter (fun q => !q.vehicle.eqPy v) = O →
      psc.filter (fun q => q.vehicle.eqPy v) = [⟨v, pos.1, pos.2⟩] →
      (psc.map fun p => p.vehicle.name).Nodup →
      (∀ p ∈ psc, 1 ≤ p.vehicle.length) →
      deltas.foldlM (fun cur δ => Board.moveUnit orig cur v δ) cursor = .ok final →
      ∃ psc', Represents final size psc' ∧
        psc'.filter (fun q => !q.vehicle.eqPy v) = O ∧
        psc'.filter (fun q => q.vehicle.eqPy v) =
          [⟨v, (shiftAnchor v pos deltas.sum).1, (shiftAnchor v pos deltas.sum).2⟩] ∧
        (psc'.map fun p => p.vehicle.name).Nodup ∧
        (∀ p ∈ psc', 1 ≤ p.vehicle.length)
  | [], cursor, psc, pos, final, hrep, hO, hpc, hnames, hlens, hfold => by
    have heq : Except.ok cursor = Except.ok final := hfold
    injection heq with heq
    subst heq
    refine ⟨psc, hrep, hO, ?_, hnames, hlens⟩
    rw [List.sum_nil, shiftAnchor_zero]
    exact hpc
  | δ :: deltas, cursor, psc, pos, final, hrep, hO, hpc, hnames, hlens, hfold => by
    rw [List.foldlM_cons] at hfold
    cases hmu : Board.moveUnit orig cursor v δ with
    | error e =>
      rw [hmu] at hfold
      have heq : (Except.error e : Except BoardError Board) = Except.ok final := hfold
      cases heq
    | ok next =>
      rw [hmu] at hfold
      have hfold2 : deltas.foldlM (fun cur δ => Board.moveUnit orig cur v δ) next =
          .ok final := hfold
      have hstep := moveUnit_step size orig cursor v δ O psc pos next horig hrep hO hpc
        hnames hlens hmu
      have hOprop : ∀ q ∈ O, (q.vehicle.eqPy v) = false := by
        intro q hq
        have := (List.mem_filter.mp (hO ▸ hq)).2
        cases hqe : q.vehicle.eqPy v
        · rfl
        · rw [hqe] at this
          cases this
      have hOnames : ((O.map fun p => p.vehicle.name)).Nodup := by
        have hsub : (O.map fun p => p.vehicle.name).Sublist
            (psc.map fun p => p.vehicle.name) := by
          rw [← hO]
          exact List.Sublist.map _ (List.filter_sublist psc)
        exact List.Nodup.sublist hsub hnames
      have hvnotin : v.name ∉ O.map fun p => p.vehicle.name := by
        intro hmem
        obtain ⟨q, hq, hqname⟩ := List.mem_map.mp hmem
        have := hOprop q hq
        rw [Vehicle.eqPy] at this
        rw [hqname] at this
        simp at this
      have hO' : (O ++ [(⟨v, (shiftAnchor v pos δ).1, (shiftAnchor v pos δ).2⟩ : Placement)]).filter
          (fun q => !q.vehicle.eqPy v) = O := by
        rw [List.filter_append]
        have h1 : O.filter (fun q => !q.vehicle.eqPy v) = O :=
          List.filter_eq_self.mpr fun q hq => by rw [hOprop q hq]; rfl
        have h2 : [(⟨v, (shiftAnchor v pos δ).1, (shiftAnchor v pos δ).2⟩ : Placement)].filter
            (fun q => !q.vehicle.eqPy v) = [] := by
          rw [List.filter_eq_nil_iff]
          intro q hq
          rw [List.mem_singleton.mp hq]
          simp [Vehicle.eqPy]
        rw [h1, h2, List.append_nil]
      have hpc' : (O ++ [(⟨v, (shiftAnchor v pos δ).1, (shiftAnchor v pos δ).2⟩ : Placement)]).filter
          (fun q => q.vehicle.eqPy v) =
          [⟨v, (shiftAnchor v pos δ).1, (shiftAnchor v pos δ).2⟩] := by
        rw [List.filter_append]
        have h1 : O.filter (fun q => q.vehicle.eqPy v) = [] := by
          rw [List.filter_eq_nil_iff]
          intro q hq
          rw [hOprop q hq]
          simp
        have h2 : [(⟨v, (shiftAnchor v pos δ).1, (shiftAnchor v pos δ).2⟩ : Placement)].filter
            (fun q => q.vehicle.eqPy v) =
            [⟨v, (shiftAnchor v pos δ).1, (shiftAnchor v pos δ).2⟩] :=
          List.filter_eq_self.mpr fun q hq => by
            rw [List.mem_singleton.mp hq]
            simp [Vehicle.eqPy]
        rw [h1, h2, List.nil_append]
      have hnames' : (((O ++ [(⟨v, (shiftAnchor v pos δ).1, (shiftAnchor v pos δ).2⟩ : Placement)]).map
          fun p => p.vehicle.name)).Nodup := by
        rw [List.map_append, List.map_singleton]
        rw [List.nodup_append]
        refine ⟨hOnames, List.nodup_singleton _, ?_⟩
        intro x hx hx2
        rw [List.mem_singleton.mp hx2] at hx
        exact hvnotin hx
      have hlens' : ∀ p ∈ (O ++ [(⟨v, (shiftAnchor v pos δ).1, (shiftAnchor v pos δ).2⟩ : Placement)]),
          1 ≤ p.vehicle.length := by
        intro p hp
        rcases List.mem_append.mp hp with hmem | hmem
        · exact hlens p ((List.mem_filter.mp (hO ▸ hmem)).1)
        · rw [List.mem_singleton.mp hmem]
          have hpcmem : (⟨v, pos.1, pos.2⟩ : Placement) ∈ psc := by
            have hm : (⟨v, pos.1, pos.2⟩ : Placement) ∈ psc.filter fun q => q.vehicle.eqPy v := by
              rw [hpc]
              exact List.mem_cons_self _ _
            exact (List.mem_filter.mp hm).1
          exact hlens ⟨v, pos.1, pos.2⟩ hpcmem
      obtain ⟨psc', hrep', hO2, hpc2, hnames2, hlens2⟩ :=
        moveSteps_ok size orig v O horig deltas next
          (O ++ [⟨v, (shiftAnchor v pos δ).1, (shiftAnchor v pos δ).2⟩])
          (shiftAnchor v pos δ) final hstep hO' hpc' hnames' hlens' hfold2
      refine ⟨psc', hrep', hO2, ?_, hnames2, hlens2⟩
      rw [hpc2, List.sum_cons, shiftAnchor_add]

lemma filter_name_single :
    ∀ (ps : List Placement), ((ps.map fun p => p.vehicle.name)).Nodup →
      ∀ (pc : Placement), pc ∈ ps →
      ps.filter (fun q => q.vehicle.eqPy pc.vehicle) = [pc]
  | [], _, pc, hpc => by simp at hpc
  | p0 :: ps, hnames, pc, hpc => by
    rw [List.map_cons, List.nodup_cons] at hnames
    rcases List.mem_cons.mp hpc with rfl | hmem
    · rw [List.filter_cons_of_pos (by simp [Vehicle.eqPy])]
      have hrest : ps.filter (fun q => q.vehicle.eqPy pc.vehicle) = [] := by
        rw [List.filter_eq_nil_iff]
        intro q hq hcontr
        have hqe : q.vehicle.name = pc.vehicle.name := by
          simpa [Vehicle.eqPy] using hcontr
        exact hnames.1 (hqe ▸ List.mem_map_of_mem _ hq)
      rw [hrest]
    · have hne : (p0.vehicle.eqPy pc.vehicle) = false := by
        cases he : p0.vehicle.eqPy pc.vehicle
        · rfl
        · have hpe : p0.vehicle.name = pc.vehicle.name := by
            simpa [Vehicle.eqPy] using he
          exact absurd (hpe ▸ List.mem_map_of_mem _ hmem) hnames.1
      rw [List.filter_cons_of_neg (by simp [hne])]
      exact filter_name_single ps hnames.2 pc hmem

lemma board_filter_vehicles (b : Board) (size : Nat) (ps : List Placement)
    (hrep : Represents b size ps) (v : Vehicle) :
    b.vehicles.filter (fun w => !w.eqPy v) =
      (ps.filter fun q => !q.vehicle.eqPy v).map fun p => p.vehicle := by
  rw [hrep.vehicles_eq, List.filter_map]
  rfl

lemma moveDeltas_sum (n : Int) :
    (if 0 ≤ n then List.replicate n.toNat (1 : Int)
     else List.replicate (-n).toNat (-1 : Int)).sum = n := by
  by_cases h : 0 ≤ n
  · rw [if_pos h, List.sum_replicate, nsmul_eq_mul, mul_one]
    omega
  · rw [if_neg h, List.sum_replicate, nsmul_eq_mul, mul_neg_one]
    omega

lemma mem_iff_filter_or {α : Type} (P : α → Bool) (l : List α) (a : α) :
    a ∈ l ↔ a ∈ l.filter P ∨ a ∈ l.filter fun x => !P x := by
  constructor
  · intro ha
    cases hP : P a
    · right
      exact List.mem_filter.mpr ⟨ha, by simp [hP]⟩
    · left
      exact List.mem_filter.mpr ⟨ha, hP⟩
  · rintro (h | h) <;> exact (List.mem_filter.mp h).1

lemma occOf_mem_congr (ps1 ps2 : List Placement)
    (hd1 : ps1.Pairwise fun p1 p2 => ∀ q ∈ p1.cells, q ∉ p2.cells)
    (hd2 : ps2.Pairwise fun p1 p2 => ∀ q ∈ p1.cells, q ∉ p2.cells)
    (hmem : ∀ q, q ∈ ps1 ↔ q ∈ ps2) (c r : Int) :
    occOf ps1 c r = occOf ps2 c r := by
  cases h1 : occOf ps1 c r with
  | some w =>
    obtain ⟨p, hp, hpw, hc⟩ := occOf_some_inv ps1 c r w h1
    rw [occOf_eq_some ps2 hd2 p ((hmem p).mp hp) c r hc, hpw]
  | none =>
    symm
    apply occOf_eq_none
    intro p hp hcell
    have hmem1 : p ∈ ps1 := (hmem p).mpr hp
    have := occOf_eq_some ps1 hd1 p hmem1 c r hcell
    rw [h1] at this
    cases this

/-- C7: for a board built from placements with distinct vehicle names and
positive lengths, moving a vehicle of the board by `+n` and then by `-n`
(both moves succeeding) restores the original occupancy cell for cell. -/
theorem move_roundtrip (size : Nat) (ps : List Placement) (b b1 b2 : Board)
    (v : Vehicle) (n : Int)
    (hnames : (ps.map fun p => p.vehicle.name).Nodup)
    (hlens : ∀ p ∈ ps, 1 ≤ p.vehicle.length)
    (hload : placeAll size ps = .ok b)
    (hv : v ∈ b.vehicles)
    (h1 : b.move v n = .ok b1)
    (h2 : b1.move v (-n) = .ok b2) :
    ∀ c r : Int, b2.grid c r = b.grid c r := by
  have hrep : Represents b size ps := placeAll_represents size ps b hload
  rw [hrep.vehicles_eq] at hv
  obtain ⟨pc, hpcmem, hpcv⟩ := List.mem_map.mp hv
  have hpceta : pc = ⟨v, pc.col, pc.row⟩ := by
    rw [← hpcv]
  have hpcfil : ps.filter (fun q => q.vehicle.eqPy v) = [⟨v, pc.col, pc.row⟩] := by
    rw [← hpcv, filter_name_single ps hnames pc hpcmem]
  have horig := board_filter_vehicles b size ps hrep v
  unfold Board.move at h1 h2
  obtain ⟨psc1, hrep1, hO1, hpc1, hnames1, hlens1⟩ :=
    moveSteps_ok size b v (ps.filter fun q => !q.vehicle.eqPy v) horig _ b ps
      (pc.col, pc.row) b1 hrep rfl hpcfil hnames hlens h1
  have horig2 : b1.vehicles.filter (fun w => !w.eqPy v) =
      (ps.filter fun q => !q.vehicle.eqPy v).map fun p => p.vehicle := by
    rw [board_filter_vehicles b1 size psc1 hrep1 v, hO1]
  obtain ⟨psc2, hrep2, hO2, hpc2, hnames2, hlens2⟩ :=
    moveSteps_ok size b1 v (ps.filter fun q => !q.vehicle.eqPy v) horig2 _ b1 psc1
      _ b2 hrep1 hO1 hpc1 hnames1 hlens1 h2
  rw [shiftAnchor_add, moveDeltas_sum, moveDeltas_sum] at hpc2
  rw [show n + -n = 0 by omega, shiftAnchor_zero] at hpc2
  intro c r
  rw [hrep2.grid_eq, hrep.grid_eq]
  apply occOf_mem_congr psc2 ps hrep2.disjoint hrep.disjoint
  intro q
  rw [mem_iff_filter_or (fun q => q.vehicle.eqPy v) psc2 q,
    mem_iff_filter_or (fun q => q.vehicle.eqPy v) ps q]
  rw [hpc2, hO2, hpcfil]

/-- Witness for C7: a 2×2 board with a single length-1 horizontal vehicle
`X` at (0,0), moved right by 1 and back by 1; the theorem is applied at
this concrete input and read off at each cell of the board. -/
theorem move_roundtrip_witness :
    boardW2.grid 0 0 = boardW.grid 0 0 ∧ boardW2.grid 1 0 = boardW.grid 1 0 ∧
    boardW2.grid 0 1 = boardW.grid 0 1 ∧ boardW2.grid 1 1 = boardW.grid 1 1 :=
  ⟨move_roundtrip 2 psW boardW boardW1 boardW2 vehX 1 (by decide) (by decide)
      rfl (by decide) rfl rfl 0 0,
    move_roundtrip 2 psW boardW boardW1 boardW2 vehX 1 (by decide) (by decide)
      rfl (by decide) rfl rfl 1 0,
    move_roundtrip 2 psW boardW boardW1 boardW2 vehX 1 (by decide) (by decide)
      rfl (by decide) rfl rfl 0 1,
    move_roundtrip 2 psW boardW boardW1 boardW2 vehX 1 (by decide) (by decide)
      rfl (by decide) rfl rfl 1 1⟩

end Rush

end TheorieCheck
